import Mathlib

/-!
Verification development for the ConCat combination engine
(src/concat/combine.py).  The definitions below are a shallow embedding of
the functions of combine.py: pure helpers become Lean functions, pandas
chunks become an explicit column-oriented frame type, and fallible code
returns Except.  Machine strings are Lean strings; Python str.lower is
modelled by an ASCII case fold, and Python dicts built by comprehension are
modelled by association lists whose lookup returns the last binding.
-/

set_option maxHeartbeats 1000000

namespace ConCat

/-- A tabular cell: either missing (pandas NA) or a text value.  The tool
reads everything with dtype=str, so values are strings. -/
inductive Cell where
  | na : Cell
  | val : String → Cell
deriving DecidableEq, Repr

/-- ASCII lower casing of one character, modelling Python str.lower on the
ASCII range (combine.py applies .lower() to header and column names). -/
def lowerChar (c : Char) : Char :=
  if 65 ≤ c.toNat ∧ c.toNat ≤ 90 then Char.ofNat (c.toNat + 32) else c

/-- ASCII lower casing of a string, modelling Python str.lower. -/
def lower (s : String) : String := ⟨s.data.map lowerChar⟩

/-- First-occurrence deduplication: the order specification used by the
union policy (first-seen order across the concatenated headers). -/
def firstSeen {α : Type} [DecidableEq α] : List α → List α
  | [] => []
  | a :: l => a :: firstSeen (l.filter (fun x => x != a))
termination_by l => l.length
decreasing_by
  simp only [List.length_cons]
  exact Nat.lt_succ_of_le (List.length_filter_le _ _)

/-- Lookup in an association list modelling a Python dict built by
successive insertion: the value of the LAST binding of the key wins. -/
def alLookup (m : List (String × String)) (k : String) : Option String :=
  (m.reverse.find? (fun p => p.1 == k)).map (fun p => p.2)

/-- Key membership for the dict model. -/
def alContains (m : List (String × String)) (k : String) : Bool :=
  (alLookup m k).isSome

/-- combine.py make_header_map: maps the (optionally case folded) name of
each header cell to the header cell itself; later entries overwrite. -/
def make_header_map (headers : List String) (case_insensitive : Bool) :
    List (String × String) :=
  headers.map (fun h => (if case_insensitive then lower h else h, h))

/-- combine.py resolve_requested_columns: split the requested names into
the resolved originals (found) and the unresolved requests (missing). -/
def resolve_requested_columns (requested : List String)
    (hm : List (String × String)) (ci : Bool) : List String × List String :=
  requested.foldl
    (fun acc r =>
      let key := if ci then lower r else r
      match alLookup hm key with
      | some v => (acc.1 ++ [v], acc.2)
      | none => (acc.1, acc.2 ++ [r]))
    ([], [])

/-- Error values raised by build_schema (Python ValueError / IndexError). -/
inductive SchemaErr where
  | indexErr : SchemaErr
  | mismatch : List String → List String → SchemaErr
  | emptyIntersection : SchemaErr
  | unknownPolicy : String → SchemaErr
deriving DecidableEq, Repr

/-- Python set equality of two lists of names, as used by the strict
policy (set(hdrs) != base_set). -/
def eqAsSet (a b : List String) : Bool :=
  a.all (fun x => b.contains x) && b.all (fun x => a.contains x)

/-- One step of the union-policy fold: append the name unless already in
the seen set, and record it as seen. -/
def ustep (acc : List String × List String) (h : String) : List String × List String :=
  if acc.2.contains h then acc else (acc.1 ++ [h], h :: acc.2)

/-- The union-policy fold of build_schema: accumulate every not yet seen
name in encounter order (all_cols plus a seen set). -/
def unionFold (hl : List (List String)) : List String :=
  (hl.foldl (fun acc hdrs => hdrs.foldl ustep acc) ([], [])).1

/-- combine.py build_schema.  The strict branch fails at the first header
whose name set differs from the base; the union branch folds names in
first-seen order; the intersection branch intersects the name sets and
filters the first header by the shared set. -/
def build_schema (headers_list : List (List String)) (policy : String) :
    Except SchemaErr (List String) :=
  if policy = "strict" then
    match headers_list with
    | [] => .error .indexErr
    | base :: rest =>
      match rest.find? (fun h => !eqAsSet h base) with
      | some h => .error (.mismatch base h)
      | none => .ok base
  else if policy = "union" then
    .ok (unionFold headers_list)
  else if policy = "intersection" then
    match headers_list with
    | [] => .error .indexErr
    | base :: rest =>
      let shared := rest.foldl (fun s h => s.filter (fun x => h.contains x)) base
      if shared.isEmpty then .error .emptyIntersection
      else .ok (base.filter (fun x => shared.contains x))
  else .error (.unknownPolicy policy)

/-! ### Delimiter sniffing -/

/-- The fixed candidate set of sniffable delimiters. -/
def SNIFF_CANDIDATES : List String := [",", "\t", ";", "|"]

/-- The whitespace set of Python str.strip (ASCII range). -/
def isPyWS (c : Char) : Bool :=
  c = ' ' || c = '\t' || c = '\n' || c = '\r' || c = '\x0b' || c = '\x0c'

/-- Python ln.strip(): remove leading and trailing whitespace. -/
def pystrip (s : String) : String :=
  ⟨((s.data.dropWhile isPyWS).reverse.dropWhile isPyWS).reverse⟩

/-- Python len(t.split(delim)) for the single-character candidate
delimiters: every occurrence splits, so the field count is one more than
the number of occurrences of the delimiter character. -/
def splitLen (t : String) (delim : String) : Nat :=
  t.data.count (delim.data.headD ',') + 1

/-- Per-candidate sample statistics: for every sampled line that is not
blank after stripping, the number of fields obtained by splitting it with
the candidate (Python len(ln.split(delim))). -/
def countsFor (lines : List String) (delim : String) : List Nat :=
  lines.filterMap (fun ln =>
    let t := pystrip ln
    if t = "" then none else some (splitLen t delim))

/-- Counter.most_common(1): the pair (modal value, its multiplicity), ties
between equally frequent values resolved toward the value first seen.
Counter iterates the distinct values in first-insertion order; folding over
the full sample with a strict comparison visits later duplicates as no-ops
(their count is never strictly larger), so the result is identical. -/
def modeOf (counts : List Nat) : Nat × Nat :=
  counts.foldl
    (fun best v => if counts.count v > best.2 then (v, counts.count v) else best)
    (0, 0)

/-- The score of a candidate: (multiplicity of the modal field count,
modal field count), the tuple the Python code compares lexicographically. -/
def scoreFor (lines : List String) (delim : String) : Nat × Nat :=
  ((modeOf (countsFor lines delim)).2, (modeOf (countsFor lines delim)).1)

/-- Strict lexicographic greater-than on score pairs (Python tuple >). -/
def lexGtB (s t : Nat × Nat) : Bool :=
  decide (s.1 > t.1) || ((s.1 == t.1) && decide (s.2 > t.2))

/-- One step of the best-so-far loop of sniff_delimiter_from_lines.  A
candidate with no countable split is skipped; otherwise it replaces the
best exactly when its score is strictly greater (the initial best score
(-1, -1) is modelled by none, which any real score beats). -/
def sniffStep (lines : List String) (best : Option (String × (Nat × Nat)))
    (delim : String) : Option (String × (Nat × Nat)) :=
  if (countsFor lines delim).isEmpty then best
  else
    match best with
    | none => some (delim, scoreFor lines delim)
    | some b =>
      if lexGtB (scoreFor lines delim) b.2 then some (delim, scoreFor lines delim)
      else best

/-- combine.py sniff_delimiter_from_lines.  The csv.Sniffer fallback on
the joined sample is kept abstract as the dialect argument (none models a
csv.Error, in which case the code returns comma). -/
def sniff_delimiter_from_lines (dialect : List String → Option String)
    (lines : List String) : String :=
  match SNIFF_CANDIDATES.foldl (sniffStep lines) none with
  | some r => r.1
  | none =>
    match dialect lines with
    | some d => d
    | none => ","

/-- combine.py read_head_lines: the first n physical lines of the file
(blank lines included; only end of file stops the loop early). -/
def read_head_lines (fileLines : List String) (n : Nat) : List String :=
  fileLines.take n

/-- combine.py sniff_file_delimiter. -/
def sniff_file_delimiter (dialect : List String → Option String)
    (fileLines : List String) (sample_rows : Nat) : String :=
  sniff_delimiter_from_lines dialect (read_head_lines fileLines sample_rows)

/-! ### Data frames and the streaming merge -/

/-- A pandas frame restricted to what the merge uses: an explicit row
count and named columns of cells (column-oriented, duplicates allowed). -/
structure DF where
  nrows : Nat
  cols : List (String × List Cell)
deriving DecidableEq, Repr

/-- The column labels of a frame, in order. -/
def DF.colNames (df : DF) : List String := df.cols.map (fun c => c.1)

/-- pandas df[names]: for each selector, every column carrying that label,
in selector order (selecting a label twice duplicates the column). -/
def DF.select (df : DF) (names : List String) : DF :=
  { nrows := df.nrows,
    cols := (names.map (fun n => df.cols.filter (fun c => c.1 == n))).flatten }

/-- pandas df[name] = NA: overwrite every column with that label, or
append a fresh all-NA column at the end when the label is absent. -/
def DF.setNA (df : DF) (name : String) : DF :=
  if df.colNames.contains name then
    { df with
      cols := df.cols.map (fun c =>
        if c.1 == name then (c.1, List.replicate df.nrows Cell.na) else c) }
  else
    { df with cols := df.cols ++ [(name, List.replicate df.nrows Cell.na)] }

/-- pandas df.rename(columns=m): map every label through the dict m,
labels outside the dict unchanged. -/
def DF.rename (df : DF) (m : List (String × String)) : DF :=
  { df with cols := df.cols.map (fun c => ((alLookup m c.1).getD c.1, c.2)) }

/-- pandas df.insert(0, name, v): prepend a constant column. -/
def DF.insertCol0 (df : DF) (name : String) (v : Cell) : DF :=
  { df with cols := (name, List.replicate df.nrows v) :: df.cols }

/-- The rows of a frame as written by to_csv, one list of cells per row. -/
def DF.toRows (df : DF) : List (List Cell) :=
  (List.range df.nrows).map (fun i => df.cols.map (fun c => c.2.getD i Cell.na))

/-- A chunk as produced by pd.read_csv: the file header as column labels,
cell i of each row under label i (short rows padded with NA). -/
def mkChunk (header : List String) (rows : List (List Cell)) : DF :=
  { nrows := rows.length,
    cols := header.enum.map (fun p => (p.2, rows.map (fun row => row.getD p.1 Cell.na))) }

/-- The missing-column policy of requested-columns mode. -/
inductive MissingPolicy where
  | error : MissingPolicy
  | skip : MissingPolicy
  | fillna : MissingPolicy
deriving DecidableEq, Repr

/-- The read-column resolution of combine.py line 264: look the schema
name up in the per-file header map, falling back to its lower-cased form
when only that form is a key, and defaulting to the name itself. -/
def readColFor (hm : List (String × String)) (c : String) : String :=
  let key := if !alContains hm c && alContains hm (lower c) then lower c else c
  (alLookup hm key).getD c

/-- The fillna pass of combine.py lines 286-289: for every (schema name,
file column) pair whose file column is absent from the chunk, assign an
all-NA column under the schema name. -/
def fillnaPass (chunkNames : List String) (pairs : List (String × String))
    (df : DF) : DF :=
  pairs.foldl (fun d p => if chunkNames.contains p.2 then d else d.setNA p.1) df

/-- The rename map of combine.py lines 290-294: file column to schema
name, restricted to file columns present in the frame (a Python dict, so
a repeated file column keeps its last schema name). -/
def renameMapFor (pairs : List (String × String)) (dfNames : List String) :
    List (String × String) :=
  pairs.filterMap (fun p => if dfNames.contains p.2 then some (p.2, p.1) else none)

/-- The late fill loop of combine.py lines 296-298 (also 301-303): append
an all-NA column for every schema name still absent.  The second component
records which names the loop synthesized. -/
def lateFill (schema : List String) (df : DF) : DF × List String :=
  schema.foldl
    (fun acc col =>
      if acc.1.colNames.contains col then acc else (acc.1.setNA col, acc.2 ++ [col]))
    (df, [])

/-- The requested-columns chunk pipeline of combine.py lines 283-299,
instrumented with the list of names the late fill loop synthesized. -/
def processChunkColumnsAux (schema : List String) (hm : List (String × String))
    (pol : MissingPolicy) (chunk : DF) : DF × List String :=
  let read_cols := schema.map (readColFor hm)
  let present := read_cols.filter (fun c => chunk.colNames.contains c)
  let df0 := chunk.select present
  let pairs := schema.zip read_cols
  let df1 := if pol = MissingPolicy.fillna then fillnaPass chunk.colNames pairs df0 else df0
  let df2 := df1.rename (renameMapFor pairs df1.colNames)
  let r := lateFill schema df2
  (r.1.select schema, r.2)

/-- The requested-columns chunk pipeline (result frame only). -/
def processChunkColumns (schema : List String) (hm : List (String × String))
    (pol : MissingPolicy) (chunk : DF) : DF :=
  (processChunkColumnsAux schema hm pol chunk).1

/-- The reconciled-mode chunk pipeline of combine.py lines 301-304: fill
absent schema columns with NA, then project to the schema. -/
def processChunkSchema (schema : List String) (chunk : DF) : DF :=
  (lateFill schema chunk).1.select schema

/-- An input file as the merge sees it: identity strings, the header the
chunks carry, and the data rows. -/
structure SrcFile where
  name : String
  stem : String
  fullPath : String
  header : List String
  rows : List (List Cell)
deriving DecidableEq, Repr

/-- combine.py source_value_for. -/
def source_value_for (f : SrcFile) (mode : String) : String :=
  if mode = "name" then f.name
  else if mode = "stem" then f.stem
  else if mode = "path" then f.fullPath
  else f.name

/-- Fuelled worker for chunksOf. -/
def chunksGo {α : Type} : Nat → Nat → List α → List (List α)
  | _, _, [] => []
  | 0, _, l => [l]
  | fuel + 1, n, l => l.take n :: chunksGo fuel n (l.drop n)

/-- Streamed chunking as produced by the pandas reader with a positive
chunksize: a file with no data rows yields exactly one empty chunk (the
reader returns an empty first chunk before raising StopIteration),
otherwise successive groups of at most n rows. -/
def chunksOf {α : Type} (n : Nat) (l : List α) : List (List α) :=
  if l.isEmpty then [[]] else chunksGo l.length n l

/-- The configuration combine_files receives from run. -/
structure CombineCfg where
  chunksize : Nat
  write_header : Bool
  columns_mode : Bool
  case_insensitive : Bool
  missing_policy : MissingPolicy
  add_source_col : Bool
  source_col_name : String
  source_mode : String
  schema_cols : List String
deriving Repr

/-- One record appended to the output file: a header line carrying the
labels to_csv printed, or a data row. -/
inductive OutRec where
  | header : List String → OutRec
  | row : List Cell → OutRec
deriving DecidableEq, Repr

/-- The per-chunk frame transformation of combine.py lines 282-308:
column pipeline per mode, then optional source column insertion and the
out_cols projection. -/
def processChunk (cfg : CombineCfg) (f : SrcFile) (rows : List (List Cell)) : DF :=
  let chunk := mkChunk f.header rows
  let df :=
    if cfg.columns_mode then
      processChunkColumns cfg.schema_cols
        (make_header_map f.header cfg.case_insensitive) cfg.missing_policy chunk
    else
      processChunkSchema cfg.schema_cols chunk
  if cfg.add_source_col then
    (df.insertCol0 cfg.source_col_name
        (Cell.val (source_value_for f cfg.source_mode))).select
      (cfg.source_col_name :: cfg.schema_cols)
  else df

/-- The to_csv append of combine.py lines 310-318: a header line exactly
when header output is on and no data row has been counted yet, then the
rows of the frame; the running total grows by the frame length. -/
def emitChunk (cfg : CombineCfg) (acc : List OutRec × Nat) (df : DF) :
    List OutRec × Nat :=
  (acc.1 ++
      (if cfg.write_header && acc.2 == 0 then [OutRec.header df.colNames] else []) ++
      df.toRows.map OutRec.row,
    acc.2 + df.nrows)

/-- Merge one file: stream its chunks through the pipeline and append. -/
def combineFile (cfg : CombineCfg) (acc : List OutRec × Nat) (f : SrcFile) :
    List OutRec × Nat :=
  (chunksOf cfg.chunksize f.rows).foldl
    (fun a rows => emitChunk cfg a (processChunk cfg f rows)) acc

/-- combine.py combine_files: the sequence of records appended to the
output file across all files and chunks. -/
def combine_files (cfg : CombineCfg) (files : List SrcFile) : List OutRec :=
  (files.foldl (combineFile cfg) ([], 0)).1

/-- Recognizer for header records. -/
def isHeaderRec : OutRec → Bool
  | OutRec.header _ => true
  | OutRec.row _ => false

/-! ### The requested-columns selection phase of run -/

/-- Fatal errors of the requested-columns selection loop (SystemExit). -/
inductive RunError where
  | missingColumns : String → List String → RunError
  | noUsableFiles : RunError
deriving DecidableEq, Repr

/-- The per-file loop of combine.py lines 413-428: abort at the first file
with missing requested columns under the error policy, drop such files
under skip, keep them under fillna. -/
def selectLoop (requested : List String) (ci : Bool) (pol : MissingPolicy) :
    List SrcFile → Except RunError (List SrcFile)
  | [] => .ok []
  | f :: rest =>
    let hm := make_header_map f.header ci
    let missing := (resolve_requested_columns requested hm ci).2
    if missing.isEmpty then
      (selectLoop requested ci pol rest).map (fun u => f :: u)
    else
      match pol with
      | .error => .error (.missingColumns f.name missing)
      | .skip => selectLoop requested ci pol rest
      | .fillna => (selectLoop requested ci pol rest).map (fun u => f :: u)

/-- combine.py lines 413-439: the usable files plus the schema, which is
the requested list verbatim; an empty usable set is fatal. -/
def selectUsable (requested : List String) (ci : Bool) (pol : MissingPolicy)
    (files : List SrcFile) : Except RunError (List SrcFile × List String) :=
  match selectLoop requested ci pol files with
  | .error e => .error e
  | .ok u => if u.isEmpty then .error .noUsableFiles else .ok (u, requested)

/-! ### The run entry point as a control-flow model (scratch workspace) -/

/-- The observable branch conditions of run (combine.py lines 326-493),
each standing for the outcome of one effectful step of the body. -/
structure RunEnv where
  mixedDelims : Bool
  normalizeSet : Bool
  normalizeTaskFails : Bool
  anyEmptyHeader : Bool
  columnsMode : Bool
  selectionFails : Bool
  schemaPolicyFails : Bool
  dryRun : Bool
  interrupted : Bool
  combineRaises : Bool
deriving DecidableEq, Repr

/-- How a run ends: normal completion, the dry-run early return, or one of
the raise sites of the body (interruption included, since Python runs the
finally block for KeyboardInterrupt as well). -/
inductive RunExit where
  | success : RunExit
  | dryRunOnly : RunExit
  | delimConflict : RunExit
  | normalizeFailed : RunExit
  | emptyHeaders : RunExit
  | selectionError : RunExit
  | schemaError : RunExit
  | interruptedExit : RunExit
  | combineError : RunExit
deriving DecidableEq, Repr

/-- The part of the try body after the normalization branch; the Bool
threads whether the scratch workspace exists. -/
def runAfterNormalize (env : RunEnv) (ws : Bool) : RunExit × Bool :=
  if env.anyEmptyHeader then (.emptyHeaders, ws)
  else if env.columnsMode && env.selectionFails then (.selectionError, ws)
  else if !env.columnsMode && env.schemaPolicyFails then (.schemaError, ws)
  else if env.dryRun then (.dryRunOnly, ws)
  else if env.interrupted then (.interruptedExit, ws)
  else if env.combineRaises then (.combineError, ws)
  else (.success, ws)

/-- The try body of run: the workspace is created (true) only inside the
mixed-delimiters normalization branch, before the worker pool runs. -/
def runBody (env : RunEnv) : RunExit × Bool :=
  if env.mixedDelims then
    if env.normalizeSet then
      if env.normalizeTaskFails then (.normalizeFailed, true)
      else runAfterNormalize env true
    else (.delimConflict, false)
  else runAfterNormalize env false

/-- run with its finally block: whatever the body did, remove the scratch
workspace if it exists (shutil.rmtree), then pass the exit through. -/
def runModel (env : RunEnv) : RunExit × Bool :=
  let r := runBody env
  (r.1, if r.2 then false else r.2)

/-- The configurations under which run creates the scratch workspace. -/
def workspaceCreated (env : RunEnv) : Bool := env.mixedDelims && env.normalizeSet

/-! ### Derived notions used by the claim statements -/

/-- The dict key under which a requested name is looked up. -/
def foldKey (ci : Bool) (c : String) : String := if ci then lower c else c

/-- Whether a requested name resolves in a header map (so it is not
reported missing by resolve_requested_columns). -/
def foundIn (hm : List (String × String)) (ci : Bool) (c : String) : Bool :=
  alContains hm (foldKey ci c)

/-- The cells of the first column of a frame carrying a label (total, with
an all-NA default for absent labels). -/
def DF.colVals (df : DF) (x : String) : List Cell :=
  ((df.cols.find? (fun c => c.1 == x)).getD (x, List.replicate df.nrows Cell.na)).2

/-- The missing-column report of resolve_requested_columns for one file. -/
def missingFor (requested : List String) (ci : Bool) (f : SrcFile) : List String :=
  (resolve_requested_columns requested (make_header_map f.header ci) ci).2

/-- Strict lexicographic order on sniffer scores, the Prop form of the
Python tuple comparison score > best_score. -/
def lexGtP (s t : Nat × Nat) : Prop := t.1 < s.1 ∨ (s.1 = t.1 ∧ t.2 < s.2)

/-- Equality of two name lists as unordered sets (Python set equality). -/
def SameSet (a b : List String) : Prop := (∀ x ∈ a, x ∈ b) ∧ (∀ x ∈ b, x ∈ a)

instance (a b : List String) : Decidable (SameSet a b) := by
  unfold SameSet; infer_instance

/-! ## General lemmas about the embedded helpers -/

theorem toNat_ofNat_valid (n : Nat) (h : n.isValidChar) : (Char.ofNat n).toNat = n := by
  rw [Char.ofNat, dif_pos h]; rfl

theorem lowerChar_idem (c : Char) : lowerChar (lowerChar c) = lowerChar c := by
  unfold lowerChar
  by_cases h : 65 ≤ c.toNat ∧ c.toNat ≤ 90
  · rw [if_pos h, toNat_ofNat_valid _ (Or.inl (by omega)), if_neg (by omega)]
  · rw [if_neg h, if_neg h]

theorem lower_idem (s : String) : lower (lower s) = lower s := by
  show String.mk ((s.data.map lowerChar).map lowerChar) = String.mk (s.data.map lowerChar)
  rw [List.map_map]
  exact congrArg String.mk (List.map_congr_left (fun a _ => lowerChar_idem a))

theorem alLookup_map {α : Type} (f g : α → String) (l : List α) (k : String) :
    alLookup (l.map (fun a => (f a, g a))) k =
      (l.reverse.find? (fun a => f a == k)).map g := by
  unfold alLookup
  rw [← List.map_reverse, List.find?_map, Option.map_map]
  rfl

theorem alLookup_make_header_map (H : List String) (ci : Bool) (k : String) :
    alLookup (make_header_map H ci) k = H.reverse.find? (fun h => foldKey ci h == k) := by
  unfold make_header_map foldKey
  rw [alLookup_map (fun h => if ci then lower h else h) (fun h => h)]
  simp

theorem alContains_make_header_map (H : List String) (ci : Bool) (k : String) :
    alContains (make_header_map H ci) k = true ↔ ∃ h ∈ H, foldKey ci h = k := by
  unfold alContains
  rw [alLookup_make_header_map]
  simp [List.find?_isSome]

theorem alLookup_make_header_map_some {H : List String} {ci : Bool} {k v : String}
    (h : alLookup (make_header_map H ci) k = some v) : v ∈ H ∧ foldKey ci v = k := by
  rw [alLookup_make_header_map] at h
  exact ⟨List.mem_reverse.mp (List.mem_of_find?_eq_some h), by simpa using List.find?_some h⟩

theorem find?_first {α : Type} (p : α → Bool) :
    ∀ (l : List α) (i : Nat) (hi : i < l.length),
      p (l.get ⟨i, hi⟩) = true →
      (∀ j (hj : j < i), p (l.get ⟨j, Nat.lt_trans hj hi⟩) = false) →
      l.find? p = some (l.get ⟨i, hi⟩)
  | a :: _, 0, _, hp, _ => by
      simpa using List.find?_cons_of_pos _ (by simpa using hp)
  | a :: t, i + 1, hi, hp, hb => by
      have ha : p a = false := hb 0 (Nat.succ_pos i)
      rw [List.find?_cons_of_neg _ (by simp [ha])]
      exact find?_first p t i (Nat.lt_of_succ_lt_succ hi) hp
        (fun j hj => hb (j + 1) (Nat.succ_lt_succ hj))

theorem find?_reverse_last {p : String → Bool} (H : List String) (v : String)
    (h : H.reverse.find? p = some v) :
    ∃ pre post, H = pre ++ v :: post ∧ p v = true ∧ ∀ x ∈ post, p x = false := by
  induction H using List.reverseRecOn with
  | nil => simp at h
  | append_singleton H' a ih =>
    rw [List.reverse_append] at h
    simp only [List.reverse_cons, List.reverse_nil, List.nil_append, List.singleton_append] at h
    by_cases hpa : p a = true
    · rw [List.find?_cons_of_pos _ hpa] at h
      obtain rfl : a = v := by simpa using h
      exact ⟨H', [], rfl, hpa, by simp⟩
    · rw [List.find?_cons_of_neg _ (by simpa using hpa)] at h
      obtain ⟨pre, post, hsplit, hv, hpost⟩ := ih h
      refine ⟨pre, post ++ [a], by simp [hsplit], hv, ?_⟩
      intro x hx
      rcases List.mem_append.mp hx with hx | hx
      · exact hpost x hx
      · simpa using (List.mem_singleton.mp hx) ▸ (by simpa using hpa)

theorem resolve_single (hm : List (String × String)) (ci : Bool) (r : String) :
    resolve_requested_columns [r] hm ci =
      match alLookup hm (foldKey ci r) with
      | some v => ([v], [])
      | none => ([], [r]) := by
  unfold resolve_requested_columns foldKey
  simp only [List.foldl_cons, List.foldl_nil]
  cases h : alLookup hm (if ci then lower r else r) <;> simp [h]

/-! ## C8 -/

theorem runAfterNormalize_snd (env : RunEnv) (ws : Bool) :
    (runAfterNormalize env ws).2 = ws := by
  unfold runAfterNormalize
  repeat' split
  all_goals rfl

/-- C8: for every run configuration, the scratch workspace does not exist
once the final cleanup has executed — on success, on the dry-run early
return, on every validation failure, on normalization failure, on
interruption, and on a combine error alike — while the body does create
the workspace exactly in the mixed-delimiter normalization branch (so the
cleanup obligation is not vacuous). -/
theorem run_workspace_always_removed (env : RunEnv) :
    (runModel env).2 = false ∧ (runBody env).2 = workspaceCreated env := by
  constructor
  · show (if (runBody env).2 then false else (runBody env).2) = false
    cases h : (runBody env).2 <;> simp [h]
  · obtain ⟨md, ns, nf, eh, cm, sf, spf, dr, ir, cr⟩ := env
    cases md <;> cases ns <;> cases nf <;>
      simp [runBody, workspaceCreated, runAfterNormalize_snd]

/-! ## C9 -/

/-- C9: under case-insensitive matching, a requested name that matches
several header entries up to case resolves to the last matching entry of
the header — the case-folded map keeps the later entry and shadows the
earlier ones. -/
theorem case_insensitive_lookup_keeps_last (H : List String) (r : String)
    (hex : ∃ x ∈ H, lower x = lower r) :
    ∃ pre v post, H = pre ++ v :: post ∧ lower v = lower r ∧
      (∀ x ∈ post, lower x ≠ lower r) ∧
      resolve_requested_columns [r] (make_header_map H true) true = ([v], []) := by
  have hsome : (alLookup (make_header_map H true) (lower r)).isSome := by
    rw [alLookup_make_header_map, List.find?_isSome]
    obtain ⟨x, hx, hl⟩ := hex
    exact ⟨x, List.mem_reverse.mpr hx, by simp [foldKey, hl]⟩
  obtain ⟨v, hv⟩ := Option.isSome_iff_exists.mp hsome
  have hfind : H.reverse.find? (fun h => foldKey true h == lower r) = some v := by
    rw [← alLookup_make_header_map]; exact hv
  obtain ⟨pre, post, hsplit, hpv, hpost⟩ := find?_reverse_last H v hfind
  refine ⟨pre, v, post, hsplit, by simpa [foldKey] using hpv, ?_, ?_⟩
  · intro x hx
    simpa [foldKey] using hpost x hx
  · rw [resolve_single]
    simp only [foldKey, if_true]
    rw [hv]

/-- Witness for C9: header with two case variants of the requested name;
the second (later) one is returned. -/
theorem case_insensitive_lookup_keeps_last_witness :
    ∃ pre v post, ["Id", "ID"] = pre ++ v :: post ∧ lower v = lower "id" ∧
      (∀ x ∈ post, lower x ≠ lower "id") ∧
      resolve_requested_columns ["id"] (make_header_map ["Id", "ID"] true) true = ([v], []) :=
  case_insensitive_lookup_keeps_last ["Id", "ID"] "id" (by decide)

/-! ## C2 -/

theorem contains_iff_mem {l : List String} {x : String} : l.contains x = true ↔ x ∈ l := by
  simp [List.contains_iff_exists_mem_beq]

theorem eqAsSet_iff (a b : List String) : eqAsSet a b = true ↔ SameSet a b := by
  unfold eqAsSet SameSet
  simp only [Bool.and_eq_true, List.all_eq_true]
  constructor
  · rintro ⟨h1, h2⟩
    exact ⟨fun x hx => contains_iff_mem.mp (h1 x hx), fun x hx => contains_iff_mem.mp (h2 x hx)⟩
  · rintro ⟨h1, h2⟩
    exact ⟨fun x hx => contains_iff_mem.mpr (h1 x hx), fun x hx => contains_iff_mem.mpr (h2 x hx)⟩

theorem build_schema_strict (base : List String) (rest : List (List String)) :
    build_schema (base :: rest) "strict" =
      (match rest.find? (fun h => !eqAsSet h base) with
        | some h => .error (.mismatch base h)
        | none => .ok base) :=
  rfl

/-- C2: under the strict policy the schema is the first header, in its
original order, when every header has the same name set as the first; and
when some header diverges as a set, the result is the mismatch error
carrying the base header and the first divergent header. -/
theorem strict_schema_spec (base : List String) (rest : List (List String)) :
    ((∀ h ∈ rest, SameSet h base) → build_schema (base :: rest) "strict" = .ok base) ∧
    (∀ i (hi : i < rest.length), ¬ SameSet (rest.get ⟨i, hi⟩) base →
      (∀ j (hj : j < i), SameSet (rest.get ⟨j, Nat.lt_trans hj hi⟩) base) →
      build_schema (base :: rest) "strict" =
        .error (.mismatch base (rest.get ⟨i, hi⟩))) := by
  constructor
  · intro hall
    rw [build_schema_strict]
    have hnone : rest.find? (fun h => !eqAsSet h base) = none := by
      rw [List.find?_eq_none]
      intro x hx
      simp [(eqAsSet_iff _ _).mpr (hall x hx)]
    rw [hnone]
  · intro i hi hdiv hbefore
    rw [build_schema_strict]
    have hfind : rest.find? (fun h => !eqAsSet h base) = some (rest.get ⟨i, hi⟩) := by
      apply find?_first
      · show (!eqAsSet (rest.get ⟨i, hi⟩) base) = true
        have hf : eqAsSet (rest.get ⟨i, hi⟩) base = false :=
          Bool.eq_false_iff.mpr (fun h => hdiv ((eqAsSet_iff _ _).mp h))
        rw [hf]; rfl
      · intro j hj
        show (!eqAsSet (rest.get ⟨j, Nat.lt_trans hj hi⟩) base) = false
        rw [(eqAsSet_iff _ _).mpr (hbefore j hj)]; rfl
    rw [hfind]

/-- Witness for C2: second header is the first in another order (accepted
order comes from the first file), third header genuinely diverges; the
divergence branch reports base and first divergent header. -/
theorem strict_schema_spec_witness :
    build_schema [["a", "b"], ["b", "a"], ["c"]] "strict" =
      .error (.mismatch ["a", "b"] ["c"]) := by
  have h := (strict_schema_spec ["a", "b"] [["b", "a"], ["c"]]).2 1 (by decide)
    (by decide) (by decide)
  exact h

/-! ## C4 -/

theorem mem_sharedFold (x : String) :
    ∀ (rest : List (List String)) (s : List String),
      (x ∈ rest.foldl (fun s h => s.filter (fun y => h.contains y)) s ↔
        x ∈ s ∧ ∀ h ∈ rest, x ∈ h)
  | [], s => by simp
  | h :: t, s => by
      rw [List.foldl_cons, mem_sharedFold x t]
      simp only [List.mem_filter, List.mem_cons]
      constructor
      · rintro ⟨⟨hs, hc⟩, hall⟩
        refine ⟨hs, ?_⟩
        rintro g (rfl | hg)
        · exact contains_iff_mem.mp hc
        · exact hall g hg
      · rintro ⟨hs, hall⟩
        exact ⟨⟨hs, contains_iff_mem.mpr (hall h (Or.inl rfl))⟩, fun g hg => hall g (Or.inr hg)⟩

theorem build_schema_intersection (base : List String) (rest : List (List String)) :
    build_schema (base :: rest) "intersection" =
      (if (rest.foldl (fun s h => s.filter (fun y => h.contains y)) base).isEmpty
        then .error .emptyIntersection
        else .ok (base.filter (fun x =>
          (rest.foldl (fun s h => s.filter (fun y => h.contains y)) base).contains x))) :=
  rfl

/-- C4: under the intersection policy the run fails with the empty
intersection error exactly when no name is common to all headers, and
otherwise returns the elements of the first header that belong to every
other header, in the order of the first header. -/
theorem intersection_schema_spec (base : List String) (rest : List (List String)) :
    (build_schema (base :: rest) "intersection" = .error .emptyIntersection ↔
      ¬ ∃ x, ∀ h ∈ base :: rest, x ∈ h) ∧
    ((∃ x, ∀ h ∈ base :: rest, x ∈ h) →
      build_schema (base :: rest) "intersection" =
        .ok (base.filter (fun x => decide (∀ h ∈ rest, x ∈ h)))) := by
  have hmem : ∀ x, (x ∈ rest.foldl (fun s h => s.filter (fun y => h.contains y)) base ↔
      ∀ h ∈ base :: rest, x ∈ h) := by
    intro x
    rw [mem_sharedFold]
    simp only [List.mem_cons]
    constructor
    · rintro ⟨hb, hall⟩ g (rfl | hg)
      · exact hb
      · exact hall g hg
    · intro hall
      exact ⟨hall base (Or.inl rfl), fun g hg => hall g (Or.inr hg)⟩
  rw [build_schema_intersection]
  cases hE : (rest.foldl (fun s h => s.filter (fun y => h.contains y)) base).isEmpty
  · have hne : rest.foldl (fun s h => s.filter (fun y => h.contains y)) base ≠ [] := by
      intro h
      rw [h] at hE
      simp at hE
    obtain ⟨x, hx⟩ := List.exists_mem_of_ne_nil _ hne
    have hex : ∃ y, ∀ h ∈ base :: rest, y ∈ h := ⟨x, (hmem x).mp hx⟩
    rw [if_neg (by simp)]
    constructor
    · exact iff_of_false (by simp) (not_not_intro hex)
    · intro _
      refine congrArg Except.ok (List.filter_congr ?_)
      intro y hy
      rw [Bool.eq_iff_iff]
      simp only [decide_eq_true_eq]
      rw [contains_iff_mem, hmem y]
      simp only [List.mem_cons]
      constructor
      · intro hall g hg
        exact hall g (Or.inr hg)
      · rintro hall g (rfl | hg)
        · exact hy
        · exact hall g hg
  · have hnil : rest.foldl (fun s h => s.filter (fun y => h.contains y)) base = [] :=
      List.isEmpty_iff.mp hE
    rw [if_pos (by simp [hE])]
    constructor
    · refine iff_of_true rfl ?_
      rintro ⟨x, hx⟩
      have : x ∈ rest.foldl (fun s h => s.filter (fun y => h.contains y)) base :=
        (hmem x).mpr hx
      rw [hnil] at this
      simp at this
    · rintro ⟨x, hx⟩
      exfalso
      have : x ∈ rest.foldl (fun s h => s.filter (fun y => h.contains y)) base :=
        (hmem x).mpr hx
      rw [hnil] at this
      simp at this

/-- Witness for C4: the shared columns of the two headers, in first-header
order. -/
theorem intersection_schema_spec_witness :
    build_schema [["a", "b", "c"], ["c", "b", "x"]] "intersection" = .ok ["b", "c"] := by
  have h := (intersection_schema_spec ["a", "b", "c"] [["c", "b", "x"]]).2
    ⟨"b", by decide⟩
  exact h.trans rfl

/-! ## C3 -/

theorem firstSeen_cons {α : Type} [DecidableEq α] (a : α) (l : List α) :
    firstSeen (a :: l) = a :: firstSeen (l.filter (fun x => x != a)) := by
  rw [firstSeen]

theorem mem_firstSeen {α : Type} [DecidableEq α] (x : α) :
    ∀ (l : List α), x ∈ firstSeen l ↔ x ∈ l
  | [] => by rw [firstSeen]
  | a :: l => by
      rw [firstSeen_cons, List.mem_cons, List.mem_cons]
      by_cases hxa : x = a
      · simp [hxa]
      · simp only [hxa, false_or]
        rw [mem_firstSeen x (l.filter (fun x => x != a))]
        simp [List.mem_filter, hxa]
termination_by l => l.length
decreasing_by
  simp only [List.length_cons]
  exact Nat.lt_succ_of_le (List.length_filter_le _ _)

theorem nodup_firstSeen {α : Type} [DecidableEq α] :
    ∀ (l : List α), (firstSeen l).Nodup
  | [] => by rw [firstSeen]; exact List.nodup_nil
  | a :: l => by
      rw [firstSeen_cons]
      refine List.Pairwise.cons ?_ (nodup_firstSeen (l.filter (fun x => x != a)))
      intro b hb
      have hbf := (mem_firstSeen b _).mp hb
      have hba : b ≠ a := by simpa using (List.mem_filter.mp hbf).2
      exact Ne.symm hba
termination_by l => l.length
decreasing_by
  simp only [List.length_cons]
  exact Nat.lt_succ_of_le (List.length_filter_le _ _)

theorem indexOf_filter_mono {α : Type} [DecidableEq α] (p : α → Bool) :
    ∀ (l : List α) (b c : α), b ∈ l.filter p → c ∈ l.filter p →
      (l.filter p).indexOf b < (l.filter p).indexOf c → l.indexOf b < l.indexOf c
  | [], b, c, hb, _, _ => by simp at hb
  | d :: t, b, c, hb, hc, h => by
      by_cases hpd : p d
      · rw [List.filter_cons_of_pos hpd] at hb hc h
        by_cases hcd : c = d
        · subst hcd
          rw [List.indexOf_cons_self] at h
          exact absurd h (Nat.not_lt_zero _)
        · have hdc : d ≠ c := Ne.symm hcd
          by_cases hbd : b = d
          · subst hbd
            rw [List.indexOf_cons_self, List.indexOf_cons_ne _ hdc]
            exact Nat.succ_pos _
          · have hdb : d ≠ b := Ne.symm hbd
            rw [List.indexOf_cons_ne _ hdb, List.indexOf_cons_ne _ hdc] at h
            rw [List.indexOf_cons_ne _ hdb, List.indexOf_cons_ne _ hdc]
            have hb2 : b ∈ t.filter p := by
              rcases List.mem_cons.mp hb with h1 | h1
              · exact absurd h1 hbd
              · exact h1
            have hc2 : c ∈ t.filter p := by
              rcases List.mem_cons.mp hc with h1 | h1
              · exact absurd h1 hcd
              · exact h1
            exact Nat.succ_lt_succ
              (indexOf_filter_mono p t b c hb2 hc2 (Nat.lt_of_succ_lt_succ h))
      · rw [List.filter_cons_of_neg hpd] at hb hc h
        have hdb : d ≠ b := fun e => hpd (e ▸ (List.mem_filter.mp hb).2)
        have hdc : d ≠ c := fun e => hpd (e ▸ (List.mem_filter.mp hc).2)
        rw [List.indexOf_cons_ne _ hdb, List.indexOf_cons_ne _ hdc]
        exact Nat.succ_lt_succ (indexOf_filter_mono p t b c hb hc h)

theorem firstSeen_pairwise_indexOf {α : Type} [DecidableEq α] :
    ∀ (l : List α), (firstSeen l).Pairwise (fun a b => l.indexOf a < l.indexOf b)
  | [] => by rw [firstSeen]; exact List.Pairwise.nil
  | a :: l => by
      rw [firstSeen_cons]
      refine List.Pairwise.cons ?_ ?_
      · intro b hb
        have hbf := (mem_firstSeen b _).mp hb
        have hba : b ≠ a := by simpa using (List.mem_filter.mp hbf).2
        rw [List.indexOf_cons_self, List.indexOf_cons_ne _ (Ne.symm hba)]
        exact Nat.succ_pos _
      · have ih := firstSeen_pairwise_indexOf (l.filter (fun x => x != a))
        refine List.Pairwise.imp_of_mem ?_ ih
        intro x y hx hy hxy
        have hxf := (mem_firstSeen x _).mp hx
        have hyf := (mem_firstSeen y _).mp hy
        have hxa : x ≠ a := by simpa using (List.mem_filter.mp hxf).2
        have hya : y ≠ a := by simpa using (List.mem_filter.mp hyf).2
        rw [List.indexOf_cons_ne _ (Ne.symm hxa), List.indexOf_cons_ne _ (Ne.symm hya)]
        exact Nat.succ_lt_succ (indexOf_filter_mono _ l x y hxf hyf hxy)
termination_by l => l.length
decreasing_by
  simp only [List.length_cons]
  exact Nat.lt_succ_of_le (List.length_filter_le _ _)

theorem foldUnion_spec :
    ∀ (l : List String) (out seen : List String),
      (∀ x, x ∈ seen ↔ x ∈ out) →
      (l.foldl ustep (out, seen)).1
        = out ++ firstSeen (l.filter (fun x => !seen.contains x))
  | [], out, seen, _ => by simp [firstSeen]
  | a :: t, out, seen, hinv => by
      rw [List.foldl_cons]
      by_cases hc : seen.contains a = true
      · have ha : a ∈ seen := contains_iff_mem.mp hc
        have hstep : ustep (out, seen) a = (out, seen) := by simp [ustep, ha]
        rw [hstep, foldUnion_spec t out seen hinv,
          List.filter_cons_of_neg (by simp [ha])]
      · have ha : a ∉ seen := fun h => hc (contains_iff_mem.mpr h)
        have hstep : ustep (out, seen) a = (out ++ [a], a :: seen) := by
          simp [ustep, ha]
        have hinv2 : ∀ x, x ∈ (a :: seen) ↔ x ∈ out ++ [a] := by
          intro x
          rw [List.mem_cons, List.mem_append, List.mem_singleton, hinv x, or_comm]
        rw [hstep, foldUnion_spec t (out ++ [a]) (a :: seen) hinv2,
          List.filter_cons_of_pos (by simp [ha]), firstSeen_cons]
        have hff : (t.filter (fun x => !seen.contains x)).filter (fun x => x != a)
            = t.filter (fun x => !((a :: seen).contains x)) := by
          rw [List.filter_filter]
          apply List.filter_congr
          intro x _
          simp only [List.contains_cons, Bool.not_or]
          rfl
        rw [← hff]
        simp [List.append_assoc]

theorem unionFold_eq_firstSeen (hl : List (List String)) :
    unionFold hl = firstSeen hl.flatten := by
  unfold unionFold
  rw [← List.foldl_flatten]
  rw [foldUnion_spec hl.flatten [] [] (by simp)]
  have hfe : hl.flatten.filter (fun x => !(([] : List String).contains x)) = hl.flatten :=
    List.filter_eq_self.mpr (fun a _ => rfl)
  rw [List.nil_append, hfe]

/-- C3 (amended): the union schema contains every name occurring in any
header exactly once; it is ordered by first occurrence across the headers
in discovery order; and its column count is at least the largest per-file
count of distinct names (which is the per-file column count whenever no
header repeats a name). -/
theorem union_schema_spec (hl : List (List String)) :
    build_schema hl "union" = .ok (unionFold hl) ∧
    (∀ x, x ∈ unionFold hl ↔ x ∈ hl.flatten) ∧
    (∀ x ∈ hl.flatten, (unionFold hl).count x = 1) ∧
    (unionFold hl).Pairwise (fun a b => hl.flatten.indexOf a < hl.flatten.indexOf b) ∧
    (∀ h ∈ hl, h.dedup.length ≤ (unionFold hl).length) := by
  refine ⟨rfl, ?_, ?_, ?_, ?_⟩
  · intro x
    rw [unionFold_eq_firstSeen]
    exact mem_firstSeen x hl.flatten
  · intro x hx
    rw [unionFold_eq_firstSeen]
    exact List.count_eq_one_of_mem (nodup_firstSeen _) ((mem_firstSeen x _).mpr hx)
  · rw [unionFold_eq_firstSeen]
    exact firstSeen_pairwise_indexOf hl.flatten
  · intro h hmem
    rw [unionFold_eq_firstSeen]
    have hsub : h.toFinset ⊆ (firstSeen hl.flatten).toFinset := by
      intro x hx
      rw [List.mem_toFinset] at hx ⊢
      exact (mem_firstSeen x _).mpr (List.mem_flatten.mpr ⟨h, hmem, hx⟩)
    calc h.dedup.length = h.toFinset.card := (List.card_toFinset h).symm
      _ ≤ (firstSeen hl.flatten).toFinset.card := Finset.card_le_card hsub
      _ = (firstSeen hl.flatten).length :=
          List.toFinset_card_of_nodup (nodup_firstSeen _)

/-- Witness for C3 (amended), applying the bound at a concrete input. -/
theorem union_schema_spec_witness :
    build_schema [["a", "b"], ["b", "c"]] "union" = .ok ["a", "b", "c"] ∧
    (["b", "c"] : List String).dedup.length ≤ 3 := by
  have h := union_schema_spec [["a", "b"], ["b", "c"]]
  refine ⟨h.1.trans rfl, ?_⟩
  have h5 := h.2.2.2.2 ["b", "c"] (by decide)
  have hlen : (unionFold [["a", "b"], ["b", "c"]]).length = 3 := rfl
  rw [hlen] at h5
  exact h5

/-- Counterexample to C3 as stated: a header that repeats a name gives a
union schema with fewer columns than that header, refuting the claimed
bound output column count at least max per-file column count. -/
theorem union_schema_count_counterexample :
    build_schema [["a", "a"]] "union" = .ok ["a"] ∧
    ¬ ((["a", "a"] : List String).length ≤ (["a"] : List String).length) := by
  exact ⟨rfl, by decide⟩

/-! ## C5 -/

theorem resolve_spec (hm : List (String × String)) (ci : Bool) :
    ∀ (R : List String) (acc : List String × List String),
      R.foldl
        (fun acc r =>
          let key := if ci then lower r else r
          match alLookup hm key with
          | some v => (acc.1 ++ [v], acc.2)
          | none => (acc.1, acc.2 ++ [r]))
        acc =
      (acc.1 ++ (R.filter (fun c => foundIn hm ci c)).map
          (fun c => (alLookup hm (foldKey ci c)).getD c),
        acc.2 ++ R.filter (fun c => !foundIn hm ci c))
  | [], acc => by simp
  | r :: R, acc => by
      rw [List.foldl_cons]
      have hkey : (if ci then lower r else r) = foldKey ci r := rfl
      cases hl : alLookup hm (foldKey ci r) with
      | some v =>
        have hf : foundIn hm ci r = true := by
          unfold foundIn alContains
          rw [hl]
          rfl
        simp only [hkey, hl]
        rw [resolve_spec hm ci R (acc.1 ++ [v], acc.2),
          List.filter_cons_of_pos hf, List.filter_cons_of_neg (by simp [hf]),
          List.map_cons, hl]
        simp [List.append_assoc]
      | none =>
        have hf : foundIn hm ci r = false := by
          unfold foundIn alContains
          rw [hl]
          rfl
        simp only [hkey, hl]
        rw [resolve_spec hm ci R (acc.1, acc.2 ++ [r]),
          List.filter_cons_of_neg (by simp [hf]), List.filter_cons_of_pos (by simp [hf])]
        simp [List.append_assoc]

theorem missingFor_eq (requested : List String) (ci : Bool) (f : SrcFile) :
    missingFor requested ci f =
      requested.filter (fun c => !foundIn (make_header_map f.header ci) ci c) := by
  unfold missingFor resolve_requested_columns
  rw [resolve_spec]
  simp

theorem selectLoop_cons (requested : List String) (ci : Bool) (pol : MissingPolicy)
    (f : SrcFile) (rest : List SrcFile) :
    selectLoop requested ci pol (f :: rest) =
      (if (missingFor requested ci f).isEmpty
        then (selectLoop requested ci pol rest).map (fun u => f :: u)
        else
          match pol with
          | .error => .error (.missingColumns f.name (missingFor requested ci f))
          | .skip => selectLoop requested ci pol rest
          | .fillna => (selectLoop requested ci pol rest).map (fun u => f :: u)) :=
  rfl

theorem selectLoop_skip (requested : List String) (ci : Bool) :
    ∀ (files : List SrcFile),
      selectLoop requested ci .skip files =
        .ok (files.filter (fun f => (missingFor requested ci f).isEmpty))
  | [] => rfl
  | f :: rest => by
      rw [selectLoop_cons]
      by_cases hE : (missingFor requested ci f).isEmpty = true
      · rw [if_pos hE, selectLoop_skip requested ci rest]
        simp only [List.filter_cons, hE, if_true]
        rfl
      · have hE2 : (missingFor requested ci f).isEmpty = false := Bool.eq_false_iff.mpr hE
        rw [if_neg hE, selectLoop_skip requested ci rest]
        simp only [List.filter_cons, hE2, Bool.false_eq_true, if_false]

theorem selectLoop_fillna (requested : List String) (ci : Bool) :
    ∀ (files : List SrcFile),
      selectLoop requested ci .fillna files = .ok files
  | [] => rfl
  | f :: rest => by
      rw [selectLoop_cons]
      by_cases hE : (missingFor requested ci f).isEmpty = true
      · rw [if_pos hE, selectLoop_fillna requested ci rest]
        rfl
      · rw [if_neg hE]
        show (selectLoop requested ci .fillna rest).map (fun u => f :: u) = .ok (f :: rest)
        rw [selectLoop_fillna requested ci rest]
        rfl

theorem selectLoop_error_first (requested : List String) (ci : Bool) :
    ∀ (files : List SrcFile) (i : Nat) (hi : i < files.length),
      missingFor requested ci (files.get ⟨i, hi⟩) ≠ [] →
      (∀ j (hj : j < i), missingFor requested ci (files.get ⟨j, Nat.lt_trans hj hi⟩) = []) →
      selectLoop requested ci .error files =
        .error (.missingColumns (files.get ⟨i, hi⟩).name
          (missingFor requested ci (files.get ⟨i, hi⟩)))
  | f :: rest, 0, h0, hmiss, _ => by
      have hmiss0 : missingFor requested ci f ≠ [] := hmiss
      rw [selectLoop_cons, if_neg (fun h => hmiss0 (List.isEmpty_iff.mp h))]
      rfl
  | f :: rest, i + 1, hi, hmiss, hbefore => by
      have h0 : missingFor requested ci f = [] := hbefore 0 (Nat.succ_pos i)
      rw [selectLoop_cons, if_pos (List.isEmpty_iff.mpr h0),
        selectLoop_error_first requested ci rest i (Nat.lt_of_succ_lt_succ hi) hmiss
          (fun j hj => hbefore (j + 1) (Nat.succ_lt_succ hj))]
      rfl

/-- C5: in requested-columns mode, under the error policy the job aborts
at the first file with missing requested columns, naming the file and the
missing names; under skip, files with missing columns are excluded, and
the job fails with the no-usable-files error exactly when that excludes
every file; under fillna every file is retained; and any successful
selection returns the requested list itself, verbatim, as the schema. -/
theorem requested_columns_policy_spec (requested : List String) (ci : Bool)
    (files : List SrcFile) :
    (∀ i (hi : i < files.length),
      missingFor requested ci (files.get ⟨i, hi⟩) ≠ [] →
      (∀ j (hj : j < i), missingFor requested ci (files.get ⟨j, Nat.lt_trans hj hi⟩) = []) →
      selectUsable requested ci .error files =
        .error (.missingColumns (files.get ⟨i, hi⟩).name
          (missingFor requested ci (files.get ⟨i, hi⟩)))) ∧
    (files.filter (fun f => (missingFor requested ci f).isEmpty) ≠ [] →
      selectUsable requested ci .skip files =
        .ok (files.filter (fun f => (missingFor requested ci f).isEmpty), requested)) ∧
    (files.filter (fun f => (missingFor requested ci f).isEmpty) = [] →
      selectUsable requested ci .skip files = .error .noUsableFiles) ∧
    (files ≠ [] → selectUsable requested ci .fillna files = .ok (files, requested)) ∧
    (∀ pol u s, selectUsable requested ci pol files = .ok (u, s) → s = requested) := by
  refine ⟨?_, ?_, ?_, ?_, ?_⟩
  · intro i hi hmiss hbefore
    unfold selectUsable
    rw [selectLoop_error_first requested ci files i hi hmiss hbefore]
  · intro hne
    unfold selectUsable
    rw [selectLoop_skip]
    have hE : (files.filter (fun f => (missingFor requested ci f).isEmpty)).isEmpty = false :=
      Bool.eq_false_iff.mpr (fun h => hne (List.isEmpty_iff.mp h))
    simp only [hE]
    rfl
  · intro hnil
    unfold selectUsable
    rw [selectLoop_skip]
    simp only [List.isEmpty_iff.mpr hnil]
    rfl
  · intro hne
    unfold selectUsable
    rw [selectLoop_fillna]
    have hE : files.isEmpty = false := Bool.eq_false_iff.mpr (fun h => hne (List.isEmpty_iff.mp h))
    simp only [hE]
    rfl
  · intro pol u s h
    unfold selectUsable at h
    cases hloop : selectLoop requested ci pol files with
    | error e =>
      rw [hloop] at h
      simp at h
    | ok u0 =>
      rw [hloop] at h
      by_cases hE : u0.isEmpty = true
      · simp [hE] at h
      · simp [hE] at h
        exact h.2.symm

/-- Witness for C5: under the error policy the job aborts naming the
second file (the first with a missing requested column) and the missing
name. -/
theorem requested_columns_policy_spec_witness :
    selectUsable ["id", "score"] false .error
      [⟨"a.csv", "a", "/a.csv", ["id", "score"], []⟩,
        ⟨"b.csv", "b", "/b.csv", ["id"], []⟩] =
      .error (.missingColumns "b.csv" ["score"]) := by
  have h := (requested_columns_policy_spec ["id", "score"] false
      [⟨"a.csv", "a", "/a.csv", ["id", "score"], []⟩,
        ⟨"b.csv", "b", "/b.csv", ["id"], []⟩]).1 1 (by decide)
      (by decide) (by decide)
  exact h.trans (by rfl)

/-! ## C1 -/

theorem setNA_nrows (df : DF) (name : String) : (df.setNA name).nrows = df.nrows := by
  unfold DF.setNA
  split <;> rfl

theorem select_nrows (df : DF) (names : List String) : (df.select names).nrows = df.nrows := rfl

theorem rename_nrows (df : DF) (m : List (String × String)) :
    (df.rename m).nrows = df.nrows := rfl

theorem insertCol0_nrows (df : DF) (name : String) (v : Cell) :
    (df.insertCol0 name v).nrows = df.nrows := rfl

theorem mkChunk_nrows (header : List String) (rows : List (List Cell)) :
    (mkChunk header rows).nrows = rows.length := rfl

theorem lateFill_acc_nrows (schema : List String) :
    ∀ (acc : DF × List String),
      ((schema.foldl
        (fun acc col =>
          if acc.1.colNames.contains col then acc else (acc.1.setNA col, acc.2 ++ [col]))
        acc).1).nrows = acc.1.nrows := by
  induction schema with
  | nil => intro acc; rfl
  | cons c cs ih =>
    intro acc
    rw [List.foldl_cons]
    by_cases hc : acc.1.colNames.contains c = true
    · rw [if_pos hc, ih]
    · rw [if_neg hc, ih]
      exact setNA_nrows _ _

theorem lateFill_fst_nrows (schema : List String) (df : DF) :
    ((lateFill schema df).1).nrows = df.nrows :=
  lateFill_acc_nrows schema (df, [])

theorem fillnaPass_nrows (chunkNames : List String) :
    ∀ (pairs : List (String × String)) (df : DF),
      (fillnaPass chunkNames pairs df).nrows = df.nrows
  | [], _ => rfl
  | p :: ps, df => by
      unfold fillnaPass
      rw [List.foldl_cons]
      by_cases hc : chunkNames.contains p.2 = true
      · rw [if_pos hc]
        exact fillnaPass_nrows chunkNames ps df
      · rw [if_neg hc]
        have h := fillnaPass_nrows chunkNames ps (df.setNA p.1)
        unfold fillnaPass at h
        rw [h, setNA_nrows]

theorem processChunkColumnsAux_nrows (schema : List String)
    (hm : List (String × String)) (pol : MissingPolicy) (chunk : DF) :
    ((processChunkColumnsAux schema hm pol chunk).1).nrows = chunk.nrows := by
  simp only [processChunkColumnsAux]
  rw [select_nrows, lateFill_fst_nrows, rename_nrows]
  split
  · rw [fillnaPass_nrows, select_nrows]
  · rw [select_nrows]

theorem processChunkSchema_nrows (schema : List String) (chunk : DF) :
    (processChunkSchema schema chunk).nrows = chunk.nrows := by
  unfold processChunkSchema
  rw [select_nrows, lateFill_fst_nrows]

theorem processChunk_nrows (cfg : CombineCfg) (f : SrcFile) (rows : List (List Cell)) :
    (processChunk cfg f rows).nrows = rows.length := by
  unfold processChunk
  simp only
  have hbase :
      (if cfg.columns_mode then
          processChunkColumns cfg.schema_cols
            (make_header_map f.header cfg.case_insensitive) cfg.missing_policy
            (mkChunk f.header rows)
        else processChunkSchema cfg.schema_cols (mkChunk f.header rows)).nrows
        = rows.length := by
    split
    · rw [show processChunkColumns cfg.schema_cols
          (make_header_map f.header cfg.case_insensitive) cfg.missing_policy
          (mkChunk f.header rows) =
          (processChunkColumnsAux cfg.schema_cols
            (make_header_map f.header cfg.case_insensitive) cfg.missing_policy
            (mkChunk f.header rows)).1 from rfl,
        processChunkColumnsAux_nrows, mkChunk_nrows]
    · rw [processChunkSchema_nrows, mkChunk_nrows]
  split
  · rw [select_nrows, insertCol0_nrows]
    exact hbase
  · exact hbase

theorem toRows_length (df : DF) : df.toRows.length = df.nrows := by
  unfold DF.toRows
  rw [List.length_map, List.length_range]

theorem countP_rowRecs (rs : List (List Cell)) :
    (rs.map OutRec.row).countP (fun r => isHeaderRec r) = 0 := by
  rw [List.countP_eq_zero]
  intro a ha
  obtain ⟨r, _, rfl⟩ := List.mem_map.mp ha
  simp [isHeaderRec]

theorem countH_emitChunk (cfg : CombineCfg) (acc : List OutRec × Nat) (df : DF) :
    (emitChunk cfg acc df).1.countP (fun r => isHeaderRec r) =
      acc.1.countP (fun r => isHeaderRec r) +
        (if cfg.write_header && acc.2 == 0 then 1 else 0) := by
  unfold emitChunk
  rw [List.countP_append, List.countP_append, countP_rowRecs]
  split
  · simp [isHeaderRec]
  · simp

theorem emitChunk_snd (cfg : CombineCfg) (acc : List OutRec × Nat) (df : DF) :
    (emitChunk cfg acc df).2 = acc.2 + df.nrows := rfl

theorem emitChunk_fst_append (cfg : CombineCfg) (acc : List OutRec × Nat) (df : DF) :
    ∃ E, (emitChunk cfg acc df).1 = acc.1 ++ E :=
  ⟨(if cfg.write_header && acc.2 == 0 then [OutRec.header df.colNames] else []) ++
      df.toRows.map OutRec.row,
    by unfold emitChunk; rw [List.append_assoc]⟩

theorem foldChunks_countH_off (cfg : CombineCfg) (hwh : cfg.write_header = false)
    (f : SrcFile) :
    ∀ (chs : List (List (List Cell))) (acc : List OutRec × Nat),
      ((chs.foldl (fun a rows => emitChunk cfg a (processChunk cfg f rows)) acc).1).countP
          (fun r => isHeaderRec r) =
        acc.1.countP (fun r => isHeaderRec r)
  | [], _ => rfl
  | ch :: chs, acc => by
      rw [List.foldl_cons, foldChunks_countH_off cfg hwh f chs, countH_emitChunk, hwh]
      simp

theorem combine_files_countH_off (cfg : CombineCfg) (hwh : cfg.write_header = false) :
    ∀ (files : List SrcFile) (acc : List OutRec × Nat),
      (((files.foldl (combineFile cfg) acc).1).countP (fun r => isHeaderRec r)) =
        acc.1.countP (fun r => isHeaderRec r)
  | [], _ => rfl
  | f :: fs, acc => by
      rw [List.foldl_cons, combine_files_countH_off cfg hwh fs]
      exact foldChunks_countH_off cfg hwh f _ acc

theorem foldChunks_pos (cfg : CombineCfg) (f : SrcFile) :
    ∀ (chs : List (List (List Cell))) (acc : List OutRec × Nat), acc.2 ≠ 0 →
      ((chs.foldl (fun a rows => emitChunk cfg a (processChunk cfg f rows)) acc).1).countP
            (fun r => isHeaderRec r) = acc.1.countP (fun r => isHeaderRec r) ∧
        (chs.foldl (fun a rows => emitChunk cfg a (processChunk cfg f rows)) acc).2 ≠ 0
  | [], acc, hpos => ⟨rfl, hpos⟩
  | ch :: chs, acc, hpos => by
      rw [List.foldl_cons]
      have hz : (acc.2 == 0) = false := by simp [hpos]
      have hrec := foldChunks_pos cfg f chs (emitChunk cfg acc (processChunk cfg f ch))
        (by rw [emitChunk_snd]; omega)
      refine ⟨?_, hrec.2⟩
      rw [hrec.1, countH_emitChunk, hz]
      simp

theorem foldFiles_pos (cfg : CombineCfg) :
    ∀ (files : List SrcFile) (acc : List OutRec × Nat), acc.2 ≠ 0 →
      (((files.foldl (combineFile cfg) acc).1).countP (fun r => isHeaderRec r) =
          acc.1.countP (fun r => isHeaderRec r)) ∧
        (files.foldl (combineFile cfg) acc).2 ≠ 0
  | [], acc, hpos => ⟨rfl, hpos⟩
  | f :: fs, acc, hpos => by
      rw [List.foldl_cons]
      have hfile := foldChunks_pos cfg f (chunksOf cfg.chunksize f.rows) acc hpos
      have hrec := foldFiles_pos cfg fs (combineFile cfg acc f) hfile.2
      refine ⟨?_, hrec.2⟩
      rw [hrec.1]
      exact hfile.1

theorem foldChunks_prefix (cfg : CombineCfg) (f : SrcFile) :
    ∀ (chs : List (List (List Cell))) (acc : List OutRec × Nat),
      ∃ T, (chs.foldl (fun a rows => emitChunk cfg a (processChunk cfg f rows)) acc).1
        = acc.1 ++ T
  | [], acc => ⟨[], by simp⟩
  | ch :: chs, acc => by
      rw [List.foldl_cons]
      obtain ⟨T, hT⟩ :=
        foldChunks_prefix cfg f chs (emitChunk cfg acc (processChunk cfg f ch))
      obtain ⟨E, hE⟩ := emitChunk_fst_append cfg acc (processChunk cfg f ch)
      exact ⟨E ++ T, by rw [hT, hE, List.append_assoc]⟩

theorem foldFiles_prefix (cfg : CombineCfg) :
    ∀ (files : List SrcFile) (acc : List OutRec × Nat),
      ∃ T, ((files.foldl (combineFile cfg) acc).1) = acc.1 ++ T
  | [], acc => ⟨[], by simp⟩
  | f :: fs, acc => by
      rw [List.foldl_cons]
      obtain ⟨T, hT⟩ := foldFiles_prefix cfg fs (combineFile cfg acc f)
      obtain ⟨E, hE⟩ := foldChunks_prefix cfg f (chunksOf cfg.chunksize f.rows) acc
      exact ⟨E ++ T, by rw [hT]; unfold combineFile; rw [hE, List.append_assoc]⟩

theorem chunksOf_cons (n : Nat) (a : List Cell) (t : List (List Cell)) :
    chunksOf n (a :: t) = (a :: t).take n :: chunksGo t.length n ((a :: t).drop n) :=
  rfl

/-- C1 (amended): with header output disabled no header record is ever
written; with header output enabled the header is emitted on every chunk
written while the running row total is still zero — hence, whenever the
first file has at least one data row, the header appears exactly once, as
the very first output record, before every data row.  (When the first
chunks are empty the code re-emits the header; see the counterexample.) -/
theorem combine_header_spec (cfg : CombineCfg) (files : List SrcFile) :
    (cfg.write_header = false →
      (combine_files cfg files).countP (fun r => isHeaderRec r) = 0) ∧
    (∀ f fs, files = f :: fs → cfg.write_header = true → 1 ≤ cfg.chunksize →
      f.rows ≠ [] →
      ∃ hdr rest, combine_files cfg files = OutRec.header hdr :: rest ∧
        rest.countP (fun r => isHeaderRec r) = 0) := by
  constructor
  · intro hwh
    unfold combine_files
    rw [combine_files_countH_off cfg hwh files ([], 0)]
    rfl
  · rintro f fs rfl hwh hchunk hrows
    obtain ⟨a, t, hr⟩ : ∃ a t, f.rows = a :: t := by
      cases hfr : f.rows with
      | nil => exact absurd hfr hrows
      | cons a t => exact ⟨a, t, rfl⟩
    have hB : combineFile cfg ([], 0) f =
        (chunksGo t.length cfg.chunksize ((a :: t).drop cfg.chunksize)).foldl
          (fun acc rows => emitChunk cfg acc (processChunk cfg f rows))
          (emitChunk cfg ([], 0) (processChunk cfg f ((a :: t).take cfg.chunksize))) := by
      unfold combineFile
      rw [hr, chunksOf_cons, List.foldl_cons]
    have hacc1 : emitChunk cfg ([], 0) (processChunk cfg f ((a :: t).take cfg.chunksize)) =
        (OutRec.header (processChunk cfg f ((a :: t).take cfg.chunksize)).colNames ::
            (processChunk cfg f ((a :: t).take cfg.chunksize)).toRows.map OutRec.row,
          (processChunk cfg f ((a :: t).take cfg.chunksize)).nrows) := by
      unfold emitChunk
      rw [hwh]
      simp
    have hn1 : (processChunk cfg f ((a :: t).take cfg.chunksize)).nrows ≠ 0 := by
      rw [processChunk_nrows, List.length_take]
      simp only [List.length_cons]
      omega
    rw [hacc1] at hB
    have hinner := foldChunks_pos cfg f
      (chunksGo t.length cfg.chunksize ((a :: t).drop cfg.chunksize))
      (OutRec.header (processChunk cfg f ((a :: t).take cfg.chunksize)).colNames ::
          (processChunk cfg f ((a :: t).take cfg.chunksize)).toRows.map OutRec.row,
        (processChunk cfg f ((a :: t).take cfg.chunksize)).nrows)
      hn1
    obtain ⟨T, hT⟩ := foldChunks_prefix cfg f
      (chunksGo t.length cfg.chunksize ((a :: t).drop cfg.chunksize))
      (OutRec.header (processChunk cfg f ((a :: t).take cfg.chunksize)).colNames ::
          (processChunk cfg f ((a :: t).take cfg.chunksize)).toRows.map OutRec.row,
        (processChunk cfg f ((a :: t).take cfg.chunksize)).nrows)
    have houter := foldFiles_pos cfg fs (combineFile cfg ([], 0) f) (by rw [hB]; exact hinner.2)
    obtain ⟨U, hU⟩ := foldFiles_prefix cfg fs (combineFile cfg ([], 0) f)
    have hcount : ((fs.foldl (combineFile cfg) (combineFile cfg ([], 0) f)).1).countP
        (fun r => isHeaderRec r) = 1 := by
      rw [houter.1, hB, hinner.1]
      simp [isHeaderRec, countP_rowRecs]
    refine ⟨(processChunk cfg f ((a :: t).take cfg.chunksize)).colNames,
      ((processChunk cfg f ((a :: t).take cfg.chunksize)).toRows.map OutRec.row ++ T) ++ U,
      ?_, ?_⟩
    · show ((f :: fs).foldl (combineFile cfg) ([], 0)).1 = _
      rw [List.foldl_cons, hU, hB, hT]
      simp [List.append_assoc]
    · have heq : ((fs.foldl (combineFile cfg) (combineFile cfg ([], 0) f)).1) =
          OutRec.header (processChunk cfg f ((a :: t).take cfg.chunksize)).colNames ::
            (((processChunk cfg f ((a :: t).take cfg.chunksize)).toRows.map OutRec.row ++ T) ++ U) := by
        rw [hU, hB, hT]
        simp [List.append_assoc]
      rw [heq, List.countP_cons] at hcount
      have h3 : isHeaderRec (OutRec.header
          (processChunk cfg f ((a :: t).take cfg.chunksize)).colNames) = true := rfl
      rw [h3, if_pos rfl] at hcount
      omega

/-- Witness for C1 (amended): a first file with one data row yields the
header exactly once, at the head of the output. -/
theorem combine_header_spec_witness :
    ∃ hdr rest,
      combine_files
        { chunksize := 1, write_header := true, columns_mode := false,
          case_insensitive := false, missing_policy := .error,
          add_source_col := false, source_col_name := "source_file",
          source_mode := "name", schema_cols := ["c"] }
        [⟨"b.csv", "b", "/b.csv", ["c"], [[Cell.val "1"]]⟩,
          ⟨"a.csv", "a", "/a.csv", ["c"], []⟩] =
        OutRec.header hdr :: rest ∧
      rest.countP (fun r => isHeaderRec r) = 0 :=
  (combine_header_spec _ _).2 ⟨"b.csv", "b", "/b.csv", ["c"], [[Cell.val "1"]]⟩
    [⟨"a.csv", "a", "/a.csv", ["c"], []⟩] rfl rfl (by decide) (by decide)

/-- Counterexample to C1 as stated: the first file has a header but no
data rows, so its single empty chunk writes the header without raising the
row total, and the next file writes the header again — two header records
for one run with header output enabled. -/
theorem combine_header_counterexample :
    combine_files
      { chunksize := 1, write_header := true, columns_mode := false,
        case_insensitive := false, missing_policy := .error,
        add_source_col := false, source_col_name := "source_file",
        source_mode := "name", schema_cols := ["c"] }
      [⟨"a.csv", "a", "/a.csv", ["c"], []⟩,
        ⟨"b.csv", "b", "/b.csv", ["c"], [[Cell.val "1"]]⟩] =
      [OutRec.header ["c"], OutRec.header ["c"], OutRec.row [Cell.val "1"]] := by
  rfl

/-! ## C7 -/

theorem countsFor_ne_nil {L : List String} (d : String)
    (h : ∃ ln ∈ L, pystrip ln ≠ "") : countsFor L d ≠ [] := by
  obtain ⟨ln, hmem, hne⟩ := h
  have : splitLen (pystrip ln) d ∈ countsFor L d := by
    rw [countsFor, List.mem_filterMap]
    exact ⟨ln, hmem, by simp only [if_neg hne]⟩
  exact List.ne_nil_of_mem this

theorem countsFor_blank {L : List String} (d : String)
    (h : ∀ ln ∈ L, pystrip ln = "") : countsFor L d = [] := by
  rw [countsFor, List.filterMap_eq_nil_iff]
  intro ln hln
  simp only [if_pos (h ln hln)]

theorem lexGtB_iff (s t : Nat × Nat) : lexGtB s t = true ↔ lexGtP s t := by
  unfold lexGtB lexGtP
  simp only [Bool.or_eq_true, Bool.and_eq_true, decide_eq_true_eq, beq_iff_eq, gt_iff_lt]

theorem sniffStep_skip (L : List String) (best : Option (String × (Nat × Nat)))
    (d : String) (h : countsFor L d = []) : sniffStep L best d = best := by
  unfold sniffStep
  rw [if_pos (by rw [h]; rfl)]

theorem sniffStep_start (L : List String) (d : String) (hne : countsFor L d ≠ []) :
    sniffStep L none d = some (d, scoreFor L d) := by
  unfold sniffStep
  rw [if_neg (fun h => hne (List.isEmpty_iff.mp h))]

theorem sniffStep_some_pos (L : List String) (b : String × (Nat × Nat)) (d : String)
    (hne : countsFor L d ≠ []) (h : lexGtB (scoreFor L d) b.2 = true) :
    sniffStep L (some b) d = some (d, scoreFor L d) := by
  unfold sniffStep
  rw [if_neg (fun hh => hne (List.isEmpty_iff.mp hh))]
  show (if lexGtB (scoreFor L d) b.2 = true then some (d, scoreFor L d) else some b) = _
  rw [if_pos h]

theorem sniffStep_some_neg (L : List String) (b : String × (Nat × Nat)) (d : String)
    (hne : countsFor L d ≠ []) (h : lexGtB (scoreFor L d) b.2 = false) :
    sniffStep L (some b) d = some b := by
  unfold sniffStep
  rw [if_neg (fun hh => hne (List.isEmpty_iff.mp hh))]
  show (if lexGtB (scoreFor L d) b.2 = true then some (d, scoreFor L d) else some b) = _
  rw [if_neg (by rw [h]; exact Bool.false_ne_true)]

theorem sniff_result (dialect : List String → Option String) (L : List String)
    (d : String) (s : Nat × Nat)
    (hfold : SNIFF_CANDIDATES.foldl (sniffStep L) none = some (d, s)) :
    sniff_delimiter_from_lines dialect L = d := by
  unfold sniff_delimiter_from_lines
  rw [hfold]

theorem sniff_result_fallback (dialect : List String → Option String) (L : List String)
    (hfold : SNIFF_CANDIDATES.foldl (sniffStep L) none = none) :
    sniff_delimiter_from_lines dialect L = (dialect L).getD "," := by
  unfold sniff_delimiter_from_lines
  rw [hfold]
  cases hd : dialect L <;> simp [hd, Option.getD]

theorem modeFold_spec (c : List Nat) :
    ∀ (l : List Nat) (best : Nat × Nat),
      ((l.foldl (fun best v => if c.count v > best.2 then (v, c.count v) else best) best)
          = best ∨
        ((l.foldl (fun best v => if c.count v > best.2 then (v, c.count v) else best) best).1
            ∈ l ∧
          (l.foldl (fun best v => if c.count v > best.2 then (v, c.count v) else best) best).2
            = c.count
              (l.foldl (fun best v => if c.count v > best.2 then (v, c.count v) else best)
                best).1)) ∧
      best.2 ≤
        (l.foldl (fun best v => if c.count v > best.2 then (v, c.count v) else best) best).2 ∧
      ∀ v ∈ l, c.count v ≤
        (l.foldl (fun best v => if c.count v > best.2 then (v, c.count v) else best) best).2
  | [], best => ⟨Or.inl rfl, Nat.le_refl _, by simp⟩
  | v :: l, best => by
      rw [List.foldl_cons]
      by_cases hv : c.count v > best.2
      · rw [if_pos hv]
        obtain ⟨ih1, ih2, ih3⟩ := modeFold_spec c l (v, c.count v)
        refine ⟨?_, ?_, ?_⟩
        · rcases ih1 with h | h
          · exact Or.inr ⟨by rw [h]; exact List.mem_cons_self v l, by rw [h]⟩
          · exact Or.inr ⟨List.mem_cons_of_mem v h.1, h.2⟩
        · exact Nat.le_trans (Nat.le_of_lt hv) ih2
        · intro w hw
          rcases List.mem_cons.mp hw with rfl | hw
          · exact ih2
          · exact ih3 w hw
      · rw [if_neg hv]
        obtain ⟨ih1, ih2, ih3⟩ := modeFold_spec c l best
        refine ⟨?_, ih2, ?_⟩
        · rcases ih1 with h | h
          · exact Or.inl h
          · exact Or.inr ⟨List.mem_cons_of_mem v h.1, h.2⟩
        · intro w hw
          rcases List.mem_cons.mp hw with rfl | hw
          · exact Nat.le_trans (Nat.le_of_not_lt hv) ih2
          · exact ih3 w hw

theorem modeOf_spec (c : List Nat) (hc : c ≠ []) :
    (modeOf c).1 ∈ c ∧ (modeOf c).2 = c.count (modeOf c).1 ∧
      ∀ v ∈ c, c.count v ≤ (modeOf c).2 := by
  obtain ⟨h1, _, h3⟩ := modeFold_spec c c (0, 0)
  obtain ⟨v0, hv0⟩ := List.exists_mem_of_ne_nil c hc
  have hpos : 1 ≤ c.count v0 := List.count_pos_iff.mpr hv0
  rcases h1 with h | h
  · exfalso
    have hb := h3 v0 hv0
    rw [h] at hb
    simp only at hb
    omega
  · exact ⟨h.1, h.2, h3⟩

/-- C7 (amended): the sniffer scores the non-blank lines among the first N
physical lines of the file (blank lines occupy sample slots); with at
least one non-blank sampled line it returns the candidate whose score pair
(frequency of the modal field count, modal field count) is
lexicographically maximal, ties resolved to the earlier candidate in the
fixed candidate order; the modal statistics are genuine modes of the
per-line field counts; and when every sampled line is blank it falls back
to the dialect-sniff heuristic and defaults to comma when that fails. -/
theorem sniffer_spec (dialect : List String → Option String)
    (fileLines : List String) (n : Nat) :
    ((∃ ln ∈ read_head_lines fileLines n, pystrip ln ≠ "") →
      ∃ d, sniff_file_delimiter dialect fileLines n = d ∧ d ∈ SNIFF_CANDIDATES ∧
        (∀ e ∈ SNIFF_CANDIDATES,
          ¬ lexGtP (scoreFor (read_head_lines fileLines n) e)
            (scoreFor (read_head_lines fileLines n) d)) ∧
        (∀ e ∈ SNIFF_CANDIDATES,
          scoreFor (read_head_lines fileLines n) e =
              scoreFor (read_head_lines fileLines n) d →
            SNIFF_CANDIDATES.indexOf d ≤ SNIFF_CANDIDATES.indexOf e)) ∧
    ((∀ ln ∈ read_head_lines fileLines n, pystrip ln = "") →
      sniff_file_delimiter dialect fileLines n =
        (dialect (read_head_lines fileLines n)).getD ",") ∧
    (∀ d, countsFor (read_head_lines fileLines n) d ≠ [] →
      (modeOf (countsFor (read_head_lines fileLines n) d)).1
          ∈ countsFor (read_head_lines fileLines n) d ∧
        (modeOf (countsFor (read_head_lines fileLines n) d)).2 =
          (countsFor (read_head_lines fileLines n) d).count
            (modeOf (countsFor (read_head_lines fileLines n) d)).1 ∧
        ∀ v ∈ countsFor (read_head_lines fileLines n) d,
          (countsFor (read_head_lines fileLines n) d).count v ≤
            (modeOf (countsFor (read_head_lines fileLines n) d)).2) := by
  set L := read_head_lines fileLines n with hL
  refine ⟨?_, ?_, fun d hd => modeOf_spec _ hd⟩
  · intro hnb
    have hne : ∀ d, countsFor L d ≠ [] := fun d => countsFor_ne_nil d hnb
    show ∃ d, sniff_delimiter_from_lines dialect L = d ∧ _
    by_cases h2 : lexGtP (scoreFor L "\t") (scoreFor L ",")
    · by_cases h3 : lexGtP (scoreFor L ";") (scoreFor L "\t")
      · by_cases h4 : lexGtP (scoreFor L "|") (scoreFor L ";")
        · have hfold : SNIFF_CANDIDATES.foldl (sniffStep L) none =
              some ("|", scoreFor L "|") := by
            simp only [SNIFF_CANDIDATES, List.foldl_cons, List.foldl_nil]
            rw [sniffStep_start L "," (hne _),
              sniffStep_some_pos L _ "\t" (hne _) ((lexGtB_iff _ _).mpr h2),
              sniffStep_some_pos L _ ";" (hne _) ((lexGtB_iff _ _).mpr h3),
              sniffStep_some_pos L _ "|" (hne _) ((lexGtB_iff _ _).mpr h4)]
          refine ⟨"|", sniff_result dialect L _ _ hfold, by decide, ?_, ?_⟩
          · intro e he
            simp only [SNIFF_CANDIDATES, List.mem_cons, List.not_mem_nil, or_false] at he
            rcases he with rfl | rfl | rfl | rfl <;>
              (simp only [lexGtP] at h2 h3 h4 ⊢; omega)
          · intro e he hsc
            have hc1 := congrArg Prod.fst hsc
            have hc2 := congrArg Prod.snd hsc
            simp only [SNIFF_CANDIDATES, List.mem_cons, List.not_mem_nil, or_false] at he
            rcases he with rfl | rfl | rfl | rfl <;>
              first
                | decide
                | (exfalso; simp only [lexGtP] at h2 h3 h4; omega)
        · have hfold : SNIFF_CANDIDATES.foldl (sniffStep L) none =
              some (";", scoreFor L ";") := by
            simp only [SNIFF_CANDIDATES, List.foldl_cons, List.foldl_nil]
            rw [sniffStep_start L "," (hne _),
              sniffStep_some_pos L _ "\t" (hne _) ((lexGtB_iff _ _).mpr h2),
              sniffStep_some_pos L _ ";" (hne _) ((lexGtB_iff _ _).mpr h3),
              sniffStep_some_neg L _ "|" (hne _)
                (Bool.eq_false_iff.mpr (fun hb => h4 ((lexGtB_iff _ _).mp hb)))]
          refine ⟨";", sniff_result dialect L _ _ hfold, by decide, ?_, ?_⟩
          · intro e he
            simp only [SNIFF_CANDIDATES, List.mem_cons, List.not_mem_nil, or_false] at he
            rcases he with rfl | rfl | rfl | rfl <;>
              (simp only [lexGtP] at h2 h3 h4 ⊢; omega)
          · intro e he hsc
            have hc1 := congrArg Prod.fst hsc
            have hc2 := congrArg Prod.snd hsc
            simp only [SNIFF_CANDIDATES, List.mem_cons, List.not_mem_nil, or_false] at he
            rcases he with rfl | rfl | rfl | rfl <;>
              first
                | decide
                | (exfalso; simp only [lexGtP] at h2 h3 h4; omega)
      · by_cases h4 : lexGtP (scoreFor L "|") (scoreFor L "\t")
        · have hfold : SNIFF_CANDIDATES.foldl (sniffStep L) none =
              some ("|", scoreFor L "|") := by
            simp only [SNIFF_CANDIDATES, List.foldl_cons, List.foldl_nil]
            rw [sniffStep_start L "," (hne _),
              sniffStep_some_pos L _ "\t" (hne _) ((lexGtB_iff _ _).mpr h2),
              sniffStep_some_neg L _ ";" (hne _)
                (Bool.eq_false_iff.mpr (fun hb => h3 ((lexGtB_iff _ _).mp hb))),
              sniffStep_some_pos L _ "|" (hne _) ((lexGtB_iff _ _).mpr h4)]
          refine ⟨"|", sniff_result dialect L _ _ hfold, by decide, ?_, ?_⟩
          · intro e he
            simp only [SNIFF_CANDIDATES, List.mem_cons, List.not_mem_nil, or_false] at he
            rcases he with rfl | rfl | rfl | rfl <;>
              (simp only [lexGtP] at h2 h3 h4 ⊢; omega)
          · intro e he hsc
            have hc1 := congrArg Prod.fst hsc
            have hc2 := congrArg Prod.snd hsc
            simp only [SNIFF_CANDIDATES, List.mem_cons, List.not_mem_nil, or_false] at he
            rcases he with rfl | rfl | rfl | rfl <;>
              first
                | decide
                | (exfalso; simp only [lexGtP] at h2 h3 h4; omega)
        · have hfold : SNIFF_CANDIDATES.foldl (sniffStep L) none =
              some ("\t", scoreFor L "\t") := by
            simp only [SNIFF_CANDIDATES, List.foldl_cons, List.foldl_nil]
            rw [sniffStep_start L "," (hne _),
              sniffStep_some_pos L _ "\t" (hne _) ((lexGtB_iff _ _).mpr h2),
              sniffStep_some_neg L _ ";" (hne _)
                (Bool.eq_false_iff.mpr (fun hb => h3 ((lexGtB_iff _ _).mp hb))),
              sniffStep_some_neg L _ "|" (hne _)
                (Bool.eq_false_iff.mpr (fun hb => h4 ((lexGtB_iff _ _).mp hb)))]
          refine ⟨"\t", sniff_result dialect L _ _ hfold, by decide, ?_, ?_⟩
          · intro e he
            simp only [SNIFF_CANDIDATES, List.mem_cons, List.not_mem_nil, or_false] at he
            rcases he with rfl | rfl | rfl | rfl <;>
              (simp only [lexGtP] at h2 h3 h4 ⊢; omega)
          · intro e he hsc
            have hc1 := congrArg Prod.fst hsc
            have hc2 := congrArg Prod.snd hsc
            simp only [SNIFF_CANDIDATES, List.mem_cons, List.not_mem_nil, or_false] at he
            rcases he with rfl | rfl | rfl | rfl <;>
              first
                | decide
                | (exfalso; simp only [lexGtP] at h2 h3 h4; omega)
    · by_cases h3 : lexGtP (scoreFor L ";") (scoreFor L ",")
      · by_cases h4 : lexGtP (scoreFor L "|") (scoreFor L ";")
        · have hfold : SNIFF_CANDIDATES.foldl (sniffStep L) none =
              some ("|", scoreFor L "|") := by
            simp only [SNIFF_CANDIDATES, List.foldl_cons, List.foldl_nil]
            rw [sniffStep_start L "," (hne _),
              sniffStep_some_neg L _ "\t" (hne _)
                (Bool.eq_false_iff.mpr (fun hb => h2 ((lexGtB_iff _ _).mp hb))),
              sniffStep_some_pos L _ ";" (hne _) ((lexGtB_iff _ _).mpr h3),
              sniffStep_some_pos L _ "|" (hne _) ((lexGtB_iff _ _).mpr h4)]
          refine ⟨"|", sniff_result dialect L _ _ hfold, by decide, ?_, ?_⟩
          · intro e he
            simp only [SNIFF_CANDIDATES, List.mem_cons, List.not_mem_nil, or_false] at he
            rcases he with rfl | rfl | rfl | rfl <;>
              (simp only [lexGtP] at h2 h3 h4 ⊢; omega)
          · intro e he hsc
            have hc1 := congrArg Prod.fst hsc
            have hc2 := congrArg Prod.snd hsc
            simp only [SNIFF_CANDIDATES, List.mem_cons, List.not_mem_nil, or_false] at he
            rcases he with rfl | rfl | rfl | rfl <;>
              first
                | decide
                | (exfalso; simp only [lexGtP] at h2 h3 h4; omega)
        · have hfold : SNIFF_CANDIDATES.foldl (sniffStep L) none =
              some (";", scoreFor L ";") := by
            simp only [SNIFF_CANDIDATES, List.foldl_cons, List.foldl_nil]
            rw [sniffStep_start L "," (hne _),
              sniffStep_some_neg L _ "\t" (hne _)
                (Bool.eq_false_iff.mpr (fun hb => h2 ((lexGtB_iff _ _).mp hb))),
              sniffStep_some_pos L _ ";" (hne _) ((lexGtB_iff _ _).mpr h3),
              sniffStep_some_neg L _ "|" (hne _)
                (Bool.eq_false_iff.mpr (fun hb => h4 ((lexGtB_iff _ _).mp hb)))]
          refine ⟨";", sniff_result dialect L _ _ hfold, by decide, ?_, ?_⟩
          · intro e he
            simp only [SNIFF_CANDIDATES, List.mem_cons, List.not_mem_nil, or_false] at he
            rcases he with rfl | rfl | rfl | rfl <;>
              (simp only [lexGtP] at h2 h3 h4 ⊢; omega)
          · intro e he hsc
            have hc1 := congrArg Prod.fst hsc
            have hc2 := congrArg Prod.snd hsc
            simp only [SNIFF_CANDIDATES, List.mem_cons, List.not_mem_nil, or_false] at he
            rcases he with rfl | rfl | rfl | rfl <;>
              first
                | decide
                | (exfalso; simp only [lexGtP] at h2 h3 h4; omega)
      · by_cases h4 : lexGtP (scoreFor L "|") (scoreFor L ",")
        · have hfold : SNIFF_CANDIDATES.foldl (sniffStep L) none =
              some ("|", scoreFor L "|") := by
            simp only [SNIFF_CANDIDATES, List.foldl_cons, List.foldl_nil]
            rw [sniffStep_start L "," (hne _),
              sniffStep_some_neg L _ "\t" (hne _)
                (Bool.eq_false_iff.mpr (fun hb => h2 ((lexGtB_iff _ _).mp hb))),
              sniffStep_some_neg L _ ";" (hne _)
                (Bool.eq_false_iff.mpr (fun hb => h3 ((lexGtB_iff _ _).mp hb))),
              sniffStep_some_pos L _ "|" (hne _) ((lexGtB_iff _ _).mpr h4)]
          refine ⟨"|", sniff_result dialect L _ _ hfold, by decide, ?_, ?_⟩
          · intro e he
            simp only [SNIFF_CANDIDATES, List.mem_cons, List.not_mem_nil, or_false] at he
            rcases he with rfl | rfl | rfl | rfl <;>
              (simp only [lexGtP] at h2 h3 h4 ⊢; omega)
          · intro e he hsc
            have hc1 := congrArg Prod.fst hsc
            have hc2 := congrArg Prod.snd hsc
            simp only [SNIFF_CANDIDATES, List.mem_cons, List.not_mem_nil, or_false] at he
            rcases he with rfl | rfl | rfl | rfl <;>
              first
                | decide
                | (exfalso; simp only [lexGtP] at h2 h3 h4; omega)
        · have hfold : SNIFF_CANDIDATES.foldl (sniffStep L) none =
              some (",", scoreFor L ",") := by
            simp only [SNIFF_CANDIDATES, List.foldl_cons, List.foldl_nil]
            rw [sniffStep_start L "," (hne _),
              sniffStep_some_neg L _ "\t" (hne _)
                (Bool.eq_false_iff.mpr (fun hb => h2 ((lexGtB_iff _ _).mp hb))),
              sniffStep_some_neg L _ ";" (hne _)
                (Bool.eq_false_iff.mpr (fun hb => h3 ((lexGtB_iff _ _).mp hb))),
              sniffStep_some_neg L _ "|" (hne _)
                (Bool.eq_false_iff.mpr (fun hb => h4 ((lexGtB_iff _ _).mp hb)))]
          refine ⟨",", sniff_result dialect L _ _ hfold, by decide, ?_, ?_⟩
          · intro e he
            simp only [SNIFF_CANDIDATES, List.mem_cons, List.not_mem_nil, or_false] at he
            rcases he with rfl | rfl | rfl | rfl <;>
              (simp only [lexGtP] at h2 h3 h4 ⊢; omega)
          · intro e he hsc
            have hc1 := congrArg Prod.fst hsc
            have hc2 := congrArg Prod.snd hsc
            simp only [SNIFF_CANDIDATES, List.mem_cons, List.not_mem_nil, or_false] at he
            rcases he with rfl | rfl | rfl | rfl <;>
              first
                | decide
                | (exfalso; simp only [lexGtP] at h2 h3 h4; omega)
  · intro hblank
    have hfold : SNIFF_CANDIDATES.foldl (sniffStep L) none = none := by
      simp only [SNIFF_CANDIDATES, List.foldl_cons, List.foldl_nil]
      rw [sniffStep_skip L _ _ (countsFor_blank _ hblank),
        sniffStep_skip L _ _ (countsFor_blank _ hblank),
        sniffStep_skip L _ _ (countsFor_blank _ hblank),
        sniffStep_skip L _ _ (countsFor_blank _ hblank)]
    exact sniff_result_fallback dialect L hfold

/-- Witness for C7 (amended) at a one-line semicolon sample. -/
theorem sniffer_spec_witness :
    ∃ d, sniff_file_delimiter (fun _ => none) ["a;b"] 1 = d ∧ d ∈ SNIFF_CANDIDATES ∧
      (∀ e ∈ SNIFF_CANDIDATES,
        ¬ lexGtP (scoreFor (read_head_lines ["a;b"] 1) e)
          (scoreFor (read_head_lines ["a;b"] 1) d)) ∧
      (∀ e ∈ SNIFF_CANDIDATES,
        scoreFor (read_head_lines ["a;b"] 1) e =
            scoreFor (read_head_lines ["a;b"] 1) d →
          SNIFF_CANDIDATES.indexOf d ≤ SNIFF_CANDIDATES.indexOf e) :=
  (sniffer_spec (fun _ => none) ["a;b"] 1).1 (by decide)

/-- Counterexample to C7 as stated: the sniffer samples the first N
physical lines, not the first N non-blank lines.  With N = 2 and a blank
second line, the code scores the sample made of one pipe line and one
blank line and returns pipe, while the sample made of the first two
non-blank lines — which the claim prescribes — scores to comma. -/
theorem sniffer_sampling_counterexample :
    sniff_file_delimiter (fun _ => none) ["p|q", "", "a;b"] 2 = "|" ∧
    sniff_delimiter_from_lines (fun _ => none)
      ((["p|q", "", "a;b"].filter (fun ln => ln != "")).take 2) = "," := by
  constructor <;> rfl

/-! ## C6 and C10: frame pipeline lemmas -/

theorem mkChunk_colNames (H : List String) (rows : List (List Cell)) :
    (mkChunk H rows).colNames = H := by
  unfold mkChunk DF.colNames
  simp only [List.map_map]
  exact List.enum_map_snd H

theorem find?_beq_self {P : List String} {c : String} (h : c ∈ P) :
    P.find? (fun x => x == c) = some c := by
  cases hf : P.find? (fun x => x == c) with
  | none =>
    rw [List.find?_eq_none] at hf
    exact absurd (by simp) (hf c h)
  | some b =>
    have hb := List.find?_some hf
    rw [show b = c from by simpa using hb]

theorem filter_fst_unique :
    ∀ (cols : List (String × List Cell)),
      (cols.map (fun c => c.1)).Nodup → ∀ (x : String), x ∈ cols.map (fun c => c.1) →
      ∃ v, cols.filter (fun c => c.1 == x) = [(x, v)] ∧
        cols.find? (fun c => c.1 == x) = some (x, v)
  | [], _, x, hx => by simp at hx
  | c :: cs, hnd, x, hx => by
      rw [List.map_cons] at hnd hx
      have hnd1 := (List.nodup_cons.mp hnd).1
      have hnd2 := (List.nodup_cons.mp hnd).2
      by_cases hcx : c.1 = x
      · have hnotin : cs.filter (fun e => e.1 == x) = [] := by
          rw [List.filter_eq_nil_iff]
          intro e he hbe
          have hex : e.1 = x := by simpa using hbe
          exact hnd1 (hcx ▸ hex ▸ List.mem_map_of_mem (fun q => q.1) he)
        refine ⟨c.2, ?_, ?_⟩
        · rw [List.filter_cons_of_pos (by simp [hcx]), hnotin, ← hcx]
        · rw [List.find?_cons_of_pos _ (by simp [hcx]), ← hcx]
      · have hx2 : x ∈ cs.map (fun e => e.1) := by
          rcases List.mem_cons.mp hx with h | h
          · exact absurd h.symm hcx
          · exact h
        obtain ⟨v, hv1, hv2⟩ := filter_fst_unique cs hnd2 x hx2
        refine ⟨v, ?_, ?_⟩
        · rw [List.filter_cons_of_neg (by simp [hcx]), hv1]
        · rw [List.find?_cons_of_neg _ (by simp [hcx]), hv2]

theorem colVals_eq_of_find? {df : DF} {x : String} {v : List Cell}
    (h : df.cols.find? (fun c => c.1 == x) = some (x, v)) : df.colVals x = v := by
  unfold DF.colVals
  rw [h]
  rfl

theorem select_eq (df : DF) (hnd : df.colNames.Nodup) (names : List String)
    (hmem : ∀ x ∈ names, x ∈ df.colNames) :
    df.select names = ⟨df.nrows, names.map (fun x => (x, df.colVals x))⟩ := by
  unfold DF.select
  refine congrArg (fun cs => DF.mk df.nrows cs) ?_
  induction names with
  | nil => rfl
  | cons x xs ih =>
    rw [List.map_cons, List.map_cons, List.flatten_cons]
    obtain ⟨v, hv1, hv2⟩ := filter_fst_unique df.cols hnd x (hmem x (List.mem_cons_self x xs))
    rw [hv1, ih (fun y hy => hmem y (List.mem_cons_of_mem x hy)),
      colVals_eq_of_find? hv2]
    rfl

theorem colNames_map_pair (n : Nat) (P : List String) (G : String → List Cell) :
    (DF.mk n (P.map (fun c => (c, G c)))).colNames = P := by
  unfold DF.colNames
  rw [List.map_map]
  show P.map (fun c => c) = P
  simp

theorem colVals_map_pair (n : Nat) (P : List String) (G : String → List Cell)
    (c : String) (hc : c ∈ P) :
    (DF.mk n (P.map (fun e => (e, G e)))).colVals c = G c := by
  unfold DF.colVals
  show ((((P.map (fun e => (e, G e))).find? (fun q => q.1 == c)).getD
    (c, List.replicate n Cell.na)).2) = G c
  rw [List.find?_map,
    show ((fun q : String × List Cell => q.1 == c) ∘ (fun e => (e, G e)))
      = (fun x => x == c) from rfl,
    find?_beq_self hc]
  rfl

theorem lateFill_nofill (schema : List String) :
    ∀ (acc : DF × List String), (∀ c ∈ schema, c ∈ acc.1.colNames) →
      schema.foldl
        (fun acc col =>
          if acc.1.colNames.contains col then acc else (acc.1.setNA col, acc.2 ++ [col]))
        acc = acc := by
  induction schema with
  | nil => intro acc _; rfl
  | cons c cs ih =>
    intro acc hmem
    rw [List.foldl_cons,
      if_pos (contains_iff_mem.mpr (hmem c (List.mem_cons_self c cs)))]
    exact ih acc (fun x hx => hmem x (List.mem_cons_of_mem c hx))

theorem lateFill_eq_nofill (schema : List String) (df : DF)
    (h : ∀ c ∈ schema, c ∈ df.colNames) : lateFill schema df = (df, []) :=
  lateFill_nofill schema (df, []) h

theorem zip_self_map {α β : Type} (f : α → β) :
    ∀ (l : List α), l.zip (l.map f) = l.map (fun a => (a, f a))
  | [] => rfl
  | a :: l => by
      rw [List.map_cons, List.zip_cons_cons, zip_self_map f l, List.map_cons]

theorem filterMap_if_not (p : String → Bool) :
    ∀ (l : List String),
      l.filterMap (fun c => if p c then none else some c) = l.filter (fun c => !p c)
  | [] => rfl
  | a :: l => by
      rw [List.filterMap_cons, List.filter_cons]
      by_cases hp : p a = true
      · rw [if_pos hp, filterMap_if_not p l, if_neg (by simp [hp])]
      · rw [if_neg hp, filterMap_if_not p l, if_pos (by simp [Bool.eq_false_iff.mpr hp])]

theorem filterMap_all_some {α β : Type} (f : α → Option β) (g : α → β) :
    ∀ (l : List α), (∀ a ∈ l, f a = some (g a)) → l.filterMap f = l.map g
  | [], _ => rfl
  | a :: l, h => by
      rw [List.filterMap_cons, h a (List.mem_cons_self a l), List.map_cons,
        filterMap_all_some f g l (fun x hx => h x (List.mem_cons_of_mem a hx))]

theorem alLookup_mem {m : List (String × String)} {k v : String}
    (h : alLookup m k = some v) : ∃ p ∈ m, p.1 = k ∧ p.2 = v := by
  unfold alLookup at h
  cases hf : m.reverse.find? (fun p => p.1 == k) with
  | none => rw [hf] at h; exact absurd h (by simp)
  | some p =>
    rw [hf] at h
    refine ⟨p, List.mem_reverse.mp (List.mem_of_find?_eq_some hf), ?_, ?_⟩
    · simpa using List.find?_some hf
    · simpa using h

theorem alLookup_map_of_injOn {α : Type} (f : α → String) (g : α → String)
    (l : List α) (hinj : ∀ x ∈ l, ∀ y ∈ l, f x = f y → x = y)
    (a : α) (ha : a ∈ l) :
    alLookup (l.map (fun x => (f x, g x))) (f a) = some (g a) := by
  rw [alLookup_map]
  cases hf : l.reverse.find? (fun x => f x == f a) with
  | none =>
    rw [List.find?_eq_none] at hf
    exact absurd (by simp) (hf a (List.mem_reverse.mpr ha))
  | some b =>
    have hb1 := List.mem_reverse.mp (List.mem_of_find?_eq_some hf)
    have hb2 : f b = f a := by simpa using List.find?_some hf
    rw [hinj b hb1 a ha hb2]
    rfl

theorem readColFor_eq (hm : List (String × String)) (c : String) :
    readColFor hm c =
      (alLookup hm
        (if !alContains hm c && alContains hm (lower c) then lower c else c)).getD c :=
  rfl

theorem alLookup_cs {H : List String} {c : String} (hc : c ∈ H) :
    alLookup (make_header_map H false) c = some c := by
  have hcon : alContains (make_header_map H false) c = true :=
    (alContains_make_header_map H false c).mpr ⟨c, hc, rfl⟩
  unfold alContains at hcon
  obtain ⟨v, hv⟩ := Option.isSome_iff_exists.mp hcon
  obtain ⟨_, hfk⟩ := alLookup_make_header_map_some hv
  rw [hv, show v = c from by simpa [foldKey] using hfk]

theorem readColFor_cs_found {H : List String} {c : String} (hc : c ∈ H) :
    readColFor (make_header_map H false) c = c := by
  have hcon : alContains (make_header_map H false) c = true :=
    (alContains_make_header_map H false c).mpr ⟨c, hc, rfl⟩
  rw [readColFor_eq, if_neg (by simp [hcon]), alLookup_cs hc]
  rfl

theorem readColFor_ci_found {H : List String} {c : String}
    (hfound : alContains (make_header_map H true) (lower c) = true) :
    readColFor (make_header_map H true) c ∈ H ∧
      lower (readColFor (make_header_map H true) c) = lower c := by
  rw [readColFor_eq]
  by_cases hcc : alContains (make_header_map H true) c = true
  · rw [if_neg (by simp [hcc])]
    obtain ⟨v, hv⟩ := Option.isSome_iff_exists.mp hcc
    obtain ⟨hvH, hfk⟩ := alLookup_make_header_map_some hv
    have hlv : lower v = c := by simpa [foldKey] using hfk
    have hcl : lower c = c := by rw [← hlv, lower_idem]
    rw [hv]
    exact ⟨hvH, by rw [Option.getD_some, hlv, hcl]⟩
  · rw [if_pos (by simp [hcc, hfound])]
    obtain ⟨v, hv⟩ := Option.isSome_iff_exists.mp hfound
    obtain ⟨hvH, hfk⟩ := alLookup_make_header_map_some hv
    rw [hv]
    exact ⟨hvH, by simpa [foldKey] using hfk⟩

theorem readColFor_missing {H : List String} {ci : Bool} {c : String}
    (hmiss : foundIn (make_header_map H ci) ci c = false)
    (hq : alContains (make_header_map H ci) (lower c) = false) :
    readColFor (make_header_map H ci) c = c ∧ c ∉ H := by
  have hcc : alContains (make_header_map H ci) c = false := by
    cases hb : alContains (make_header_map H ci) c with
    | false => rfl
    | true =>
      exfalso
      obtain ⟨h0, hh0, hfk⟩ := (alContains_make_header_map H ci c).mp hb
      cases ci with
      | false =>
        have hm2 : alContains (make_header_map H false) c = false := hmiss
        rw [hm2] at hb
        exact absurd hb (by decide)
      | true =>
        simp only [foldKey, if_true] at hfk
        have hx : alContains (make_header_map H true) (lower c) = true := by
          refine (alContains_make_header_map H true (lower c)).mpr ⟨h0, hh0, ?_⟩
          show foldKey true h0 = lower c
          simp only [foldKey, if_true]
          rw [← hfk, lower_idem]
        rw [hx] at hq
        exact absurd hq (by decide)
  refine ⟨?_, ?_⟩
  · rw [readColFor_eq, if_neg (by simp [hq])]
    cases ho : alLookup (make_header_map H ci) c with
    | none => rfl
    | some v =>
      exfalso
      unfold alContains at hcc
      rw [ho] at hcc
      simp at hcc
  · intro hcH
    cases ci with
    | false =>
      have hcon := (alContains_make_header_map H false c).mpr ⟨c, hcH, rfl⟩
      rw [hcc] at hcon
      exact absurd hcon (by decide)
    | true =>
      have hcon := (alContains_make_header_map H true (lower c)).mpr ⟨c, hcH, rfl⟩
      rw [hq] at hcon
      exact absurd hcon (by decide)

theorem fillnaPass_append (chunkNames : List String) :
    ∀ (ps : List (String × String)) (df : DF),
      (∀ p ∈ ps, chunkNames.contains p.2 = false → p.1 ∉ df.colNames) →
      (ps.filterMap (fun p => if chunkNames.contains p.2 then none else some p.1)).Nodup →
      fillnaPass chunkNames ps df =
        DF.mk df.nrows (df.cols ++
          (ps.filterMap (fun p => if chunkNames.contains p.2 then none else some p.1)).map
            (fun c => (c, List.replicate df.nrows Cell.na)))
  | [], df, _, _ => by
      show df = DF.mk df.nrows (df.cols ++ [])
      rw [List.append_nil]
  | p :: ps, df, hnew, hnd => by
      unfold fillnaPass
      rw [List.foldl_cons, List.filterMap_cons]
      by_cases hc : chunkNames.contains p.2 = true
      · rw [if_pos hc, if_pos hc]
        exact fillnaPass_append chunkNames ps df
          (fun q hq => hnew q (List.mem_cons_of_mem p hq))
          (by rw [List.filterMap_cons, if_pos hc] at hnd; exact hnd)
      · rw [if_neg hc, if_neg hc]
        have hE : chunkNames.contains p.2 = false := Bool.eq_false_iff.mpr hc
        have hp1 : p.1 ∉ df.colNames := hnew p (List.mem_cons_self p ps) hE
        have hsetna : df.setNA p.1 =
            DF.mk df.nrows (df.cols ++ [(p.1, List.replicate df.nrows Cell.na)]) := by
          unfold DF.setNA
          rw [if_neg (fun h => hp1 (contains_iff_mem.mp h))]
        have hnd2 : (ps.filterMap
            (fun p => if chunkNames.contains p.2 then none else some p.1)).Nodup := by
          rw [List.filterMap_cons, if_neg hc] at hnd
          exact (List.nodup_cons.mp hnd).2
        have hnotin : p.1 ∉ ps.filterMap
            (fun p => if chunkNames.contains p.2 then none else some p.1) := by
          rw [List.filterMap_cons, if_neg hc] at hnd
          exact (List.nodup_cons.mp hnd).1
        have hnew2 : ∀ q ∈ ps, chunkNames.contains q.2 = false →
            q.1 ∉ (df.setNA p.1).colNames := by
          intro q hq hqc
          rw [hsetna]
          show q.1 ∉ (df.cols ++ [(p.1, List.replicate df.nrows Cell.na)]).map (fun c => c.1)
          rw [List.map_append, List.mem_append]
          rintro (h1 | h1)
          · exact hnew q (List.mem_cons_of_mem p hq) hqc h1
          · have hqp : q.1 = p.1 := by simpa using h1
            refine hnotin ?_
            rw [← hqp]
            exact List.mem_filterMap.mpr ⟨q, hq,
              by rw [if_neg (by intro hh; rw [hqc] at hh; exact absurd hh (by decide))]⟩
        have ih := fillnaPass_append chunkNames ps (df.setNA p.1) hnew2 hnd2
        unfold fillnaPass at ih
        rw [ih, hsetna]
        dsimp only
        rw [List.map_cons, List.append_assoc]
        rfl

theorem foundIn_classify (H : List String) (ci : Bool) (c : String)
    (hf : foundIn (make_header_map H ci) ci c = true) :
    readColFor (make_header_map H ci) c ∈ H ∧
      (ci = true → lower (readColFor (make_header_map H ci) c) = lower c) ∧
      (ci = false → readColFor (make_header_map H ci) c = c) := by
  cases ci with
  | false =>
    have hcon : alContains (make_header_map H false) c = true := hf
    obtain ⟨h0, hh0, hfk⟩ := (alContains_make_header_map H false c).mp hcon
    have hcH : c ∈ H := by
      have : h0 = c := by simpa [foldKey] using hfk
      exact this ▸ hh0
    refine ⟨?_, ?_, ?_⟩
    · rw [readColFor_cs_found hcH]; exact hcH
    · intro h; exact absurd h (by decide)
    · intro _; exact readColFor_cs_found hcH
  | true =>
    have hcon : alContains (make_header_map H true) (lower c) = true := hf
    have h := readColFor_ci_found hcon
    exact ⟨h.1, fun _ => h.2, fun h => absurd h (by decide)⟩

theorem readColFor_inj (requested H : List String) (ci : Bool)
    (hfold : (requested.map (foldKey ci)).Nodup)
    (hquirk : ∀ c ∈ requested,
      foundIn (make_header_map H ci) ci c = false →
      alContains (make_header_map H ci) (lower c) = false) :
    ∀ x ∈ requested, ∀ y ∈ requested,
      readColFor (make_header_map H ci) x = readColFor (make_header_map H ci) y → x = y := by
  intro x hx y hy he
  by_cases fx : foundIn (make_header_map H ci) ci x = true
  · by_cases fy : foundIn (make_header_map H ci) ci y = true
    · cases ci with
      | false =>
        rw [(foundIn_classify H false x fx).2.2 rfl,
          (foundIn_classify H false y fy).2.2 rfl] at he
        exact he
      | true =>
        have hlx := (foundIn_classify H true x fx).2.1 rfl
        have hly := (foundIn_classify H true y fy).2.1 rfl
        have : lower x = lower y := by rw [← hlx, ← hly, he]
        exact List.inj_on_of_nodup_map hfold hx hy (by simpa [foldKey] using this)
    · have fy2 := Bool.eq_false_iff.mpr fy
      obtain ⟨hrc, hyH⟩ := readColFor_missing fy2 (hquirk y hy fy2)
      rw [hrc] at he
      exact absurd (he ▸ (foundIn_classify H ci x fx).1) hyH
  · have fx2 := Bool.eq_false_iff.mpr fx
    obtain ⟨hrcx, hxH⟩ := readColFor_missing fx2 (hquirk x hx fx2)
    by_cases fy : foundIn (make_header_map H ci) ci y = true
    · rw [hrcx] at he
      rw [he] at hxH
      exact absurd (foundIn_classify H ci y fy).1 hxH
    · have fy2 := Bool.eq_false_iff.mpr fy
      obtain ⟨hrcy, _⟩ := readColFor_missing fy2 (hquirk y hy fy2)
      rw [hrcx, hrcy] at he
      exact he

theorem filterMap_congr_mem {α β : Type} (f g : α → Option β) :
    ∀ (l : List α), (∀ a ∈ l, f a = g a) → l.filterMap f = l.filterMap g
  | [], _ => rfl
  | a :: l, h => by
      rw [List.filterMap_cons, List.filterMap_cons, h a (List.mem_cons_self a l),
        filterMap_congr_mem f g l (fun x hx => h x (List.mem_cons_of_mem a hx))]

theorem processChunkColumns_fillna_master
    (requested H : List String) (ci : Bool) (rows : List (List Cell))
    (hH : H.Nodup)
    (hfold : (requested.map (foldKey ci)).Nodup)
    (hquirk : ∀ c ∈ requested,
      foundIn (make_header_map H ci) ci c = false →
      alContains (make_header_map H ci) (lower c) = false) :
    processChunkColumnsAux requested (make_header_map H ci) MissingPolicy.fillna (mkChunk H rows) =
      (DF.mk rows.length (requested.map (fun c => (c, if foundIn (make_header_map H ci) ci c = true then (mkChunk H rows).colVals ((readColFor (make_header_map H ci)) c) else List.replicate rows.length Cell.na))), []) := by
  have hreq : requested.Nodup := List.Nodup.of_map _ hfold
  have hinj := readColFor_inj requested H ci hfold hquirk
  have hmiss : ∀ c ∈ requested, foundIn (make_header_map H ci) ci c = false →
      (readColFor (make_header_map H ci)) c = c ∧ c ∉ H :=
    fun c hc hf => readColFor_missing hf (hquirk c hc hf)
  have hchN : (mkChunk H rows).colNames = H := mkChunk_colNames H rows
  have hchNd : (mkChunk H rows).colNames.Nodup := by rw [hchN]; exact hH
  have hcontains : ∀ c ∈ requested,
      (mkChunk H rows).colNames.contains ((readColFor (make_header_map H ci)) c) = foundIn (make_header_map H ci) ci c := by
    intro c hc
    rw [hchN]
    by_cases hf : foundIn (make_header_map H ci) ci c = true
    · rw [hf]
      exact contains_iff_mem.mpr (foundIn_classify H ci c hf).1
    · have hf2 := Bool.eq_false_iff.mpr hf
      rw [hf2]
      obtain ⟨hrc, hnotH⟩ := hmiss c hc hf2
      rw [hrc]
      exact Bool.eq_false_iff.mpr (fun hcon => hnotH (contains_iff_mem.mp hcon))
  have hA : (requested.map (readColFor (make_header_map H ci))).filter (fun c => (mkChunk H rows).colNames.contains c)
      = (requested.filter (fun c => foundIn (make_header_map H ci) ci c)).map (readColFor (make_header_map H ci)) := by
    rw [List.filter_map]
    exact congrArg (List.map (readColFor (make_header_map H ci))) (List.filter_congr (fun c hc => hcontains c hc))
  have hmemPf : ∀ x ∈ (requested.filter (fun c => foundIn (make_header_map H ci) ci c)).map (readColFor (make_header_map H ci)), x ∈ (mkChunk H rows).colNames := by
    intro x hx
    obtain ⟨c, hcf, rfl⟩ := List.mem_map.mp hx
    have hc := List.mem_filter.mp hcf
    have hc2 : foundIn (make_header_map H ci) ci c = true := hc.2
    rw [hchN]
    exact (foundIn_classify H ci c hc2).1
  have hB : (mkChunk H rows).select ((requested.filter (fun c => foundIn (make_header_map H ci) ci c)).map (readColFor (make_header_map H ci))) = DF.mk rows.length ((requested.filter (fun c => foundIn (make_header_map H ci) ci c)).map (fun c => ((readColFor (make_header_map H ci)) c, (mkChunk H rows).colVals ((readColFor (make_header_map H ci)) c)))) := by
    rw [select_eq _ hchNd _ hmemPf, List.map_map]
    rfl
  have hC : requested.zip (requested.map (readColFor (make_header_map H ci))) = (requested.map (fun c => (c, (readColFor (make_header_map H ci)) c))) :=
    zip_self_map (readColFor (make_header_map H ci)) requested
  have hnames : (requested.map (fun c => (c, (readColFor (make_header_map H ci)) c))).filterMap
        (fun p => if (mkChunk H rows).colNames.contains p.2 then none else some p.1)
      = (requested.filter (fun c => !foundIn (make_header_map H ci) ci c)) := by
    rw [List.filterMap_map,
      ← filterMap_if_not (fun c => foundIn (make_header_map H ci) ci c)]
    refine filterMap_congr_mem _ _ requested ?_
    intro c hc
    show (if (mkChunk H rows).colNames.contains ((readColFor (make_header_map H ci)) c) then none else some c)
      = (if foundIn (make_header_map H ci) ci c then none else some c)
    rw [hcontains c hc]
  have hnew : ∀ p ∈ (requested.map (fun c => (c, (readColFor (make_header_map H ci)) c))), (mkChunk H rows).colNames.contains p.2 = false →
      p.1 ∉ (DF.mk rows.length ((requested.filter (fun c => foundIn (make_header_map H ci) ci c)).map (fun c => ((readColFor (make_header_map H ci)) c, (mkChunk H rows).colVals ((readColFor (make_header_map H ci)) c))))).colNames := by
    intro p hp hpc
    obtain ⟨c, hc, rfl⟩ := List.mem_map.mp hp
    have hf : foundIn (make_header_map H ci) ci c = false := by
      rw [← hcontains c hc]
      exact hpc
    obtain ⟨_, hnotH⟩ := hmiss c hc hf
    intro hmem
    have hmem2 : c ∈ ((requested.filter (fun c => foundIn (make_header_map H ci) ci c)).map (fun c => ((readColFor (make_header_map H ci)) c, (mkChunk H rows).colVals ((readColFor (make_header_map H ci)) c)))).map (fun q => q.1) := hmem
    rw [List.map_map] at hmem2
    obtain ⟨e, hef, hee⟩ := List.mem_map.mp hmem2
    have he2 := List.mem_filter.mp hef
    have he3 : foundIn (make_header_map H ci) ci e = true := he2.2
    have hee2 : (readColFor (make_header_map H ci)) e = c := hee
    exact hnotH (hee2 ▸ (foundIn_classify H ci e he3).1)
  have hndnames : ((requested.map (fun c => (c, (readColFor (make_header_map H ci)) c))).filterMap
      (fun p => if (mkChunk H rows).colNames.contains p.2 then none else some p.1)).Nodup := by
    rw [hnames]
    exact hreq.filter _
  have hD2 : fillnaPass (mkChunk H rows).colNames (requested.map (fun c => (c, (readColFor (make_header_map H ci)) c))) (DF.mk rows.length ((requested.filter (fun c => foundIn (make_header_map H ci) ci c)).map (fun c => ((readColFor (make_header_map H ci)) c, (mkChunk H rows).colVals ((readColFor (make_header_map H ci)) c)))))
      = DF.mk rows.length (((requested.filter (fun c => foundIn (make_header_map H ci) ci c)).map (fun c => ((readColFor (make_header_map H ci)) c, (mkChunk H rows).colVals ((readColFor (make_header_map H ci)) c)))) ++ ((requested.filter (fun c => !foundIn (make_header_map H ci) ci c)).map (fun c => (c, List.replicate rows.length Cell.na)))) := by
    rw [fillnaPass_append (mkChunk H rows).colNames _ _ hnew hndnames, hnames]
  have hdf1N : (DF.mk rows.length (((requested.filter (fun c => foundIn (make_header_map H ci) ci c)).map (fun c => ((readColFor (make_header_map H ci)) c, (mkChunk H rows).colVals ((readColFor (make_header_map H ci)) c)))) ++ ((requested.filter (fun c => !foundIn (make_header_map H ci) ci c)).map (fun c => (c, List.replicate rows.length Cell.na))))).colNames
      = (requested.filter (fun c => foundIn (make_header_map H ci) ci c)).map (readColFor (make_header_map H ci)) ++ (requested.filter (fun c => !foundIn (make_header_map H ci) ci c)) := by
    show (((requested.filter (fun c => foundIn (make_header_map H ci) ci c)).map (fun c => ((readColFor (make_header_map H ci)) c, (mkChunk H rows).colVals ((readColFor (make_header_map H ci)) c)))) ++ ((requested.filter (fun c => !foundIn (make_header_map H ci) ci c)).map (fun c => (c, List.replicate rows.length Cell.na)))).map (fun c => c.1) = (requested.filter (fun c => foundIn (make_header_map H ci) ci c)).map (readColFor (make_header_map H ci)) ++ (requested.filter (fun c => !foundIn (make_header_map H ci) ci c))
    rw [List.map_append, List.map_map, List.map_map]
    refine congrArg₂ (fun a b => a ++ b) rfl ?_
    show (requested.filter (fun c => !foundIn (make_header_map H ci) ci c)).map (fun c => c) = (requested.filter (fun c => !foundIn (make_header_map H ci) ci c))
    exact List.map_id' (requested.filter (fun c => !foundIn (make_header_map H ci) ci c))
  have hE : renameMapFor (requested.map (fun c => (c, (readColFor (make_header_map H ci)) c))) ((requested.filter (fun c => foundIn (make_header_map H ci) ci c)).map (readColFor (make_header_map H ci)) ++ (requested.filter (fun c => !foundIn (make_header_map H ci) ci c))) = (requested.map (fun e => ((readColFor (make_header_map H ci)) e, e))) := by
    unfold renameMapFor
    rw [List.filterMap_map]
    refine filterMap_all_some _ _ requested ?_
    intro c hc
    show (if ((requested.filter (fun c => foundIn (make_header_map H ci) ci c)).map (readColFor (make_header_map H ci)) ++ (requested.filter (fun c => !foundIn (make_header_map H ci) ci c))).contains ((readColFor (make_header_map H ci)) c)
        then some ((readColFor (make_header_map H ci)) c, c) else none)
      = some ((readColFor (make_header_map H ci)) c, c)
    refine if_pos (contains_iff_mem.mpr ?_)
    by_cases hf : foundIn (make_header_map H ci) ci c = true
    · exact List.mem_append_left _ (List.mem_map_of_mem _ (List.mem_filter.mpr ⟨hc, hf⟩))
    · have hf2 := Bool.eq_false_iff.mpr hf
      rw [(hmiss c hc hf2).1]
      refine List.mem_append_right _ (List.mem_filter.mpr ⟨hc, ?_⟩)
      show (!foundIn (make_header_map H ci) ci c) = true
      rw [hf2]
      rfl
  have hF : (DF.mk rows.length (((requested.filter (fun c => foundIn (make_header_map H ci) ci c)).map (fun c => ((readColFor (make_header_map H ci)) c, (mkChunk H rows).colVals ((readColFor (make_header_map H ci)) c)))) ++ ((requested.filter (fun c => !foundIn (make_header_map H ci) ci c)).map (fun c => (c, List.replicate rows.length Cell.na))))).rename (requested.map (fun e => ((readColFor (make_header_map H ci)) e, e)))
      = DF.mk rows.length (((requested.filter (fun c => foundIn (make_header_map H ci) ci c)) ++ (requested.filter (fun c => !foundIn (make_header_map H ci) ci c))).map (fun c => (c, if foundIn (make_header_map H ci) ci c = true then (mkChunk H rows).colVals ((readColFor (make_header_map H ci)) c) else List.replicate rows.length Cell.na))) := by
    show DF.mk rows.length ((((requested.filter (fun c => foundIn (make_header_map H ci) ci c)).map (fun c => ((readColFor (make_header_map H ci)) c, (mkChunk H rows).colVals ((readColFor (make_header_map H ci)) c)))) ++ ((requested.filter (fun c => !foundIn (make_header_map H ci) ci c)).map (fun c => (c, List.replicate rows.length Cell.na)))).map
        (fun q => ((alLookup (requested.map (fun e => ((readColFor (make_header_map H ci)) e, e))) q.1).getD q.1, q.2)))
      = DF.mk rows.length (((requested.filter (fun c => foundIn (make_header_map H ci) ci c)) ++ (requested.filter (fun c => !foundIn (make_header_map H ci) ci c))).map (fun c => (c, if foundIn (make_header_map H ci) ci c = true then (mkChunk H rows).colVals ((readColFor (make_header_map H ci)) c) else List.replicate rows.length Cell.na)))
    refine congrArg (DF.mk rows.length) ?_
    rw [List.map_append, List.map_map, List.map_map, List.map_append]
    refine congrArg₂ (fun a b => a ++ b) ?_ ?_
    · refine List.map_congr_left ?_
      intro c hc
      have hc0 := List.mem_filter.mp hc
      have hcr : c ∈ requested := hc0.1
      have hcf : foundIn (make_header_map H ci) ci c = true := hc0.2
      have hlk : alLookup (requested.map (fun e => ((readColFor (make_header_map H ci)) e, e))) ((readColFor (make_header_map H ci)) c) = some c :=
        alLookup_map_of_injOn (readColFor (make_header_map H ci)) (fun e => e) requested hinj c hcr
      show ((alLookup (requested.map (fun e => ((readColFor (make_header_map H ci)) e, e))) ((readColFor (make_header_map H ci)) c)).getD ((readColFor (make_header_map H ci)) c), (mkChunk H rows).colVals ((readColFor (make_header_map H ci)) c)) = (fun c => (c, if foundIn (make_header_map H ci) ci c = true then (mkChunk H rows).colVals ((readColFor (make_header_map H ci)) c) else List.replicate rows.length Cell.na)) c
      rw [hlk]
      show (c, (mkChunk H rows).colVals ((readColFor (make_header_map H ci)) c))
        = (c, if foundIn (make_header_map H ci) ci c = true then (mkChunk H rows).colVals ((readColFor (make_header_map H ci)) c)
              else List.replicate rows.length Cell.na)
      rw [if_pos hcf]
    · refine List.map_congr_left ?_
      intro c hc
      have hc0 := List.mem_filter.mp hc
      have hcr : c ∈ requested := hc0.1
      have hcf : (!foundIn (make_header_map H ci) ci c) = true := hc0.2
      have hcf2 : foundIn (make_header_map H ci) ci c = false := by simpa using hcf
      have hlk : alLookup (requested.map (fun e => ((readColFor (make_header_map H ci)) e, e))) ((readColFor (make_header_map H ci)) c) = some c :=
        alLookup_map_of_injOn (readColFor (make_header_map H ci)) (fun e => e) requested hinj c hcr
      rw [(hmiss c hcr hcf2).1] at hlk
      show ((alLookup (requested.map (fun e => ((readColFor (make_header_map H ci)) e, e))) c).getD c, List.replicate rows.length Cell.na) = (fun c => (c, if foundIn (make_header_map H ci) ci c = true then (mkChunk H rows).colVals ((readColFor (make_header_map H ci)) c) else List.replicate rows.length Cell.na)) c
      rw [hlk]
      show (c, List.replicate rows.length Cell.na)
        = (c, if foundIn (make_header_map H ci) ci c = true then (mkChunk H rows).colVals ((readColFor (make_header_map H ci)) c)
              else List.replicate rows.length Cell.na)
      rw [if_neg (by rw [hcf2]; exact Bool.false_ne_true)]
  have hnames2 : (DF.mk rows.length (((requested.filter (fun c => foundIn (make_header_map H ci) ci c)) ++ (requested.filter (fun c => !foundIn (make_header_map H ci) ci c))).map (fun c => (c, if foundIn (make_header_map H ci) ci c = true then (mkChunk H rows).colVals ((readColFor (make_header_map H ci)) c) else List.replicate rows.length Cell.na)))).colNames = (requested.filter (fun c => foundIn (make_header_map H ci) ci c)) ++ (requested.filter (fun c => !foundIn (make_header_map H ci) ci c)) :=
    colNames_map_pair rows.length ((requested.filter (fun c => foundIn (make_header_map H ci) ci c)) ++ (requested.filter (fun c => !foundIn (make_header_map H ci) ci c))) (fun e => if foundIn (make_header_map H ci) ci e = true then (mkChunk H rows).colVals ((readColFor (make_header_map H ci)) e) else List.replicate rows.length Cell.na)
  have hmem12 : ∀ c ∈ requested, c ∈ (requested.filter (fun c => foundIn (make_header_map H ci) ci c)) ++ (requested.filter (fun c => !foundIn (make_header_map H ci) ci c)) := by
    intro c hc
    by_cases hf : foundIn (make_header_map H ci) ci c = true
    · exact List.mem_append_left _ (List.mem_filter.mpr ⟨hc, hf⟩)
    · have hf2 := Bool.eq_false_iff.mpr hf
      refine List.mem_append_right _ (List.mem_filter.mpr ⟨hc, ?_⟩)
      show (!foundIn (make_header_map H ci) ci c) = true
      rw [hf2]
      rfl
  have hmemPP : ∀ c ∈ requested, c ∈ (DF.mk rows.length (((requested.filter (fun c => foundIn (make_header_map H ci) ci c)) ++ (requested.filter (fun c => !foundIn (make_header_map H ci) ci c))).map (fun c => (c, if foundIn (make_header_map H ci) ci c = true then (mkChunk H rows).colVals ((readColFor (make_header_map H ci)) c) else List.replicate rows.length Cell.na)))).colNames := by
    intro c hc
    rw [hnames2]
    exact hmem12 c hc
  have hG : lateFill requested (DF.mk rows.length (((requested.filter (fun c => foundIn (make_header_map H ci) ci c)) ++ (requested.filter (fun c => !foundIn (make_header_map H ci) ci c))).map (fun c => (c, if foundIn (make_header_map H ci) ci c = true then (mkChunk H rows).colVals ((readColFor (make_header_map H ci)) c) else List.replicate rows.length Cell.na))))
      = (DF.mk rows.length (((requested.filter (fun c => foundIn (make_header_map H ci) ci c)) ++ (requested.filter (fun c => !foundIn (make_header_map H ci) ci c))).map (fun c => (c, if foundIn (make_header_map H ci) ci c = true then (mkChunk H rows).colVals ((readColFor (make_header_map H ci)) c) else List.replicate rows.length Cell.na))), []) :=
    lateFill_eq_nofill requested _ hmemPP
  have hnd12 : (DF.mk rows.length (((requested.filter (fun c => foundIn (make_header_map H ci) ci c)) ++ (requested.filter (fun c => !foundIn (make_header_map H ci) ci c))).map (fun c => (c, if foundIn (make_header_map H ci) ci c = true then (mkChunk H rows).colVals ((readColFor (make_header_map H ci)) c) else List.replicate rows.length Cell.na)))).colNames.Nodup := by
    rw [hnames2, List.nodup_append]
    refine ⟨hreq.filter _, hreq.filter _, ?_⟩
    intro a h1 h2
    have ha1 : foundIn (make_header_map H ci) ci a = true := (List.mem_filter.mp h1).2
    have ha2 : (!foundIn (make_header_map H ci) ci a) = true := (List.mem_filter.mp h2).2
    rw [ha1] at ha2
    exact absurd ha2 (by decide)
  have hself : (DF.mk rows.length (((requested.filter (fun c => foundIn (make_header_map H ci) ci c)) ++ (requested.filter (fun c => !foundIn (make_header_map H ci) ci c))).map (fun c => (c, if foundIn (make_header_map H ci) ci c = true then (mkChunk H rows).colVals ((readColFor (make_header_map H ci)) c) else List.replicate rows.length Cell.na)))).select requested
      = DF.mk rows.length (requested.map (fun c => (c, if foundIn (make_header_map H ci) ci c = true then (mkChunk H rows).colVals ((readColFor (make_header_map H ci)) c) else List.replicate rows.length Cell.na))) := by
    rw [select_eq _ hnd12 requested hmemPP]
    refine congrArg₂ DF.mk rfl ?_
    refine List.map_congr_left ?_
    intro c hc
    have hcv : (DF.mk rows.length (((requested.filter (fun c => foundIn (make_header_map H ci) ci c)) ++ (requested.filter (fun c => !foundIn (make_header_map H ci) ci c))).map (fun c => (c, if foundIn (make_header_map H ci) ci c = true then (mkChunk H rows).colVals ((readColFor (make_header_map H ci)) c) else List.replicate rows.length Cell.na)))).colVals c
        = (if foundIn (make_header_map H ci) ci c = true then (mkChunk H rows).colVals ((readColFor (make_header_map H ci)) c)
           else List.replicate rows.length Cell.na) :=
      colVals_map_pair rows.length ((requested.filter (fun c => foundIn (make_header_map H ci) ci c)) ++ (requested.filter (fun c => !foundIn (make_header_map H ci) ci c))) (fun e => if foundIn (make_header_map H ci) ci e = true then (mkChunk H rows).colVals ((readColFor (make_header_map H ci)) e) else List.replicate rows.length Cell.na) c (hmem12 c hc)
    show (c, (DF.mk rows.length (((requested.filter (fun c => foundIn (make_header_map H ci) ci c)) ++ (requested.filter (fun c => !foundIn (make_header_map H ci) ci c))).map (fun c => (c, if foundIn (make_header_map H ci) ci c = true then (mkChunk H rows).colVals ((readColFor (make_header_map H ci)) c) else List.replicate rows.length Cell.na)))).colVals c) = (fun c => (c, if foundIn (make_header_map H ci) ci c = true then (mkChunk H rows).colVals ((readColFor (make_header_map H ci)) c) else List.replicate rows.length Cell.na)) c
    rw [hcv]
  simp only [processChunkColumnsAux, if_true]
  rw [hA, hB, hC, hD2, hdf1N, hE, hF, hG]
  exact congrArg₂ Prod.mk hself rfl

/-- The fillna pass is the identity when every (schema, file column) pair
names a column present in the chunk. -/
theorem fillnaPass_id (chunkNames : List String) :
    ∀ (ps : List (String × String)) (df : DF),
      (∀ p ∈ ps, chunkNames.contains p.2 = true) →
      fillnaPass chunkNames ps df = df
  | [], _, _ => rfl
  | p :: ps, df, h => by
      unfold fillnaPass
      rw [List.foldl_cons, if_pos (h p (List.mem_cons_self p ps))]
      exact fillnaPass_id chunkNames ps df (fun q hq => h q (List.mem_cons_of_mem p hq))

/-- When every requested name resolves in the header map and resolution is
injective on the requested list, the chunk pipeline (under any missing
policy) projects the chunk to the requested names and the late fill loop
synthesizes nothing. -/
theorem processChunkColumnsAux_found
    (requested H : List String) (ci : Bool) (pol : MissingPolicy) (rows : List (List Cell))
    (hH : H.Nodup)
    (hall : ∀ c ∈ requested, foundIn (make_header_map H ci) ci c = true)
    (hinj : ∀ x ∈ requested, ∀ y ∈ requested, (readColFor (make_header_map H ci)) x = (readColFor (make_header_map H ci)) y → x = y) :
    processChunkColumnsAux requested (make_header_map H ci) pol (mkChunk H rows) =
      ((DF.mk rows.length (requested.map (fun c => (c, (mkChunk H rows).colVals ((readColFor (make_header_map H ci)) c))))).select requested,
        []) := by
  have hchN : (mkChunk H rows).colNames = H := mkChunk_colNames H rows
  have hchNd : (mkChunk H rows).colNames.Nodup := by rw [hchN]; exact hH
  have hcontains : ∀ c ∈ requested, (mkChunk H rows).colNames.contains ((readColFor (make_header_map H ci)) c) = true := by
    intro c hc
    rw [hchN]
    exact contains_iff_mem.mpr (foundIn_classify H ci c (hall c hc)).1
  have hA : (requested.map (readColFor (make_header_map H ci))).filter (fun c => (mkChunk H rows).colNames.contains c)
      = requested.map (readColFor (make_header_map H ci)) := by
    refine List.filter_eq_self.mpr ?_
    intro x hx
    obtain ⟨c, hc, rfl⟩ := List.mem_map.mp hx
    exact hcontains c hc
  have hmemPf : ∀ x ∈ requested.map (readColFor (make_header_map H ci)), x ∈ (mkChunk H rows).colNames := by
    intro x hx
    obtain ⟨c, hc, rfl⟩ := List.mem_map.mp hx
    exact contains_iff_mem.mp (hcontains c hc)
  have hB : (mkChunk H rows).select (requested.map (readColFor (make_header_map H ci)))
      = DF.mk rows.length (requested.map (fun c => ((readColFor (make_header_map H ci)) c, (mkChunk H rows).colVals ((readColFor (make_header_map H ci)) c)))) := by
    rw [select_eq _ hchNd _ hmemPf, List.map_map]
    rfl
  have hC : requested.zip (requested.map (readColFor (make_header_map H ci))) = (requested.map (fun c => (c, (readColFor (make_header_map H ci)) c))) :=
    zip_self_map (readColFor (make_header_map H ci)) requested
  have hD : (if pol = MissingPolicy.fillna
        then fillnaPass (mkChunk H rows).colNames (requested.map (fun c => (c, (readColFor (make_header_map H ci)) c)))
          (DF.mk rows.length (requested.map (fun c => ((readColFor (make_header_map H ci)) c, (mkChunk H rows).colVals ((readColFor (make_header_map H ci)) c)))))
        else DF.mk rows.length (requested.map (fun c => ((readColFor (make_header_map H ci)) c, (mkChunk H rows).colVals ((readColFor (make_header_map H ci)) c)))))
      = DF.mk rows.length (requested.map (fun c => ((readColFor (make_header_map H ci)) c, (mkChunk H rows).colVals ((readColFor (make_header_map H ci)) c)))) := by
    by_cases hp : pol = MissingPolicy.fillna
    · rw [if_pos hp]
      refine fillnaPass_id (mkChunk H rows).colNames _ _ ?_
      intro p hp2
      obtain ⟨c, hc, rfl⟩ := List.mem_map.mp hp2
      exact hcontains c hc
    · rw [if_neg hp]
  have hdfN : (DF.mk rows.length (requested.map (fun c => ((readColFor (make_header_map H ci)) c, (mkChunk H rows).colVals ((readColFor (make_header_map H ci)) c))))).colNames
      = requested.map (readColFor (make_header_map H ci)) := by
    show (requested.map (fun c => ((readColFor (make_header_map H ci)) c, (mkChunk H rows).colVals ((readColFor (make_header_map H ci)) c)))).map (fun c => c.1)
      = requested.map (readColFor (make_header_map H ci))
    rw [List.map_map]
    rfl
  have hE : renameMapFor (requested.map (fun c => (c, (readColFor (make_header_map H ci)) c))) (requested.map (readColFor (make_header_map H ci))) = (requested.map (fun e => ((readColFor (make_header_map H ci)) e, e))) := by
    unfold renameMapFor
    rw [List.filterMap_map]
    refine filterMap_all_some _ _ requested ?_
    intro c hc
    show (if (requested.map (readColFor (make_header_map H ci))).contains ((readColFor (make_header_map H ci)) c) then some ((readColFor (make_header_map H ci)) c, c) else none)
      = some ((readColFor (make_header_map H ci)) c, c)
    exact if_pos (contains_iff_mem.mpr (List.mem_map_of_mem _ hc))
  have hF : (DF.mk rows.length (requested.map (fun c => ((readColFor (make_header_map H ci)) c, (mkChunk H rows).colVals ((readColFor (make_header_map H ci)) c))))).rename (requested.map (fun e => ((readColFor (make_header_map H ci)) e, e)))
      = DF.mk rows.length (requested.map (fun c => (c, (mkChunk H rows).colVals ((readColFor (make_header_map H ci)) c)))) := by
    show DF.mk rows.length ((requested.map (fun c => ((readColFor (make_header_map H ci)) c, (mkChunk H rows).colVals ((readColFor (make_header_map H ci)) c)))).map
        (fun q => ((alLookup (requested.map (fun e => ((readColFor (make_header_map H ci)) e, e))) q.1).getD q.1, q.2)))
      = DF.mk rows.length (requested.map (fun c => (c, (mkChunk H rows).colVals ((readColFor (make_header_map H ci)) c))))
    refine congrArg (DF.mk rows.length) ?_
    rw [List.map_map]
    refine List.map_congr_left ?_
    intro c hc
    have hlk : alLookup (requested.map (fun e => ((readColFor (make_header_map H ci)) e, e))) ((readColFor (make_header_map H ci)) c) = some c :=
      alLookup_map_of_injOn (readColFor (make_header_map H ci)) (fun e => e) requested hinj c hc
    show ((alLookup (requested.map (fun e => ((readColFor (make_header_map H ci)) e, e))) ((readColFor (make_header_map H ci)) c)).getD ((readColFor (make_header_map H ci)) c), (mkChunk H rows).colVals ((readColFor (make_header_map H ci)) c))
      = (c, (mkChunk H rows).colVals ((readColFor (make_header_map H ci)) c))
    rw [hlk]
    rfl
  have hnames2 : (DF.mk rows.length (requested.map (fun c => (c, (mkChunk H rows).colVals ((readColFor (make_header_map H ci)) c))))).colNames
      = requested :=
    colNames_map_pair rows.length requested (fun e => (mkChunk H rows).colVals ((readColFor (make_header_map H ci)) e))
  have hmemPP : ∀ c ∈ requested,
      c ∈ (DF.mk rows.length (requested.map (fun c => (c, (mkChunk H rows).colVals ((readColFor (make_header_map H ci)) c))))).colNames := by
    intro c hc
    rw [hnames2]
    exact hc
  have hG : lateFill requested (DF.mk rows.length (requested.map (fun c => (c, (mkChunk H rows).colVals ((readColFor (make_header_map H ci)) c)))))
      = (DF.mk rows.length (requested.map (fun c => (c, (mkChunk H rows).colVals ((readColFor (make_header_map H ci)) c)))), []) :=
    lateFill_eq_nofill requested _ hmemPP
  simp only [processChunkColumnsAux]
  rw [hA, hB, hC, hD, hdfN, hE, hF, hG]

/-! ## C6 -/

/-- C6 (amended): in requested-columns mode under the fillna policy, for a
chunk whose header has no duplicate labels, with requested names of
pairwise distinct match keys none of whose unresolved members is captured
by the case-insensitive fallback of the read-column lookup, the processed
chunk carries exactly the requested names in requested order; every
requested name the header map does not resolve becomes an all-NA column,
and every resolved name keeps the values of the file column it resolved
to.  (Amended: the fallback proviso is necessary - combine.py line 266
applies the lower-cased lookup even with case matching off, so an
unresolved name whose lower-cased form is a file column is filled with
that column's values rather than NA; see the counterexample.) -/
theorem requested_fillna_nulls
    (requested H : List String) (ci : Bool) (rows : List (List Cell))
    (hH : H.Nodup)
    (hfold : (requested.map (foldKey ci)).Nodup)
    (hquirk : ∀ c ∈ requested,
      foundIn (make_header_map H ci) ci c = false → alContains (make_header_map H ci) (lower c) = false) :
    (processChunkColumns requested (make_header_map H ci) MissingPolicy.fillna (mkChunk H rows)).colNames = requested ∧
    (∀ X ∈ requested, foundIn (make_header_map H ci) ci X = false →
      (processChunkColumns requested (make_header_map H ci) MissingPolicy.fillna (mkChunk H rows)).colVals X
        = List.replicate rows.length Cell.na) ∧
    (∀ c ∈ requested, foundIn (make_header_map H ci) ci c = true →
      (processChunkColumns requested (make_header_map H ci) MissingPolicy.fillna (mkChunk H rows)).colVals c
        = (mkChunk H rows).colVals ((readColFor (make_header_map H ci)) c)) := by
  have hout : processChunkColumns requested (make_header_map H ci) MissingPolicy.fillna (mkChunk H rows)
      = DF.mk rows.length (requested.map (fun c => (c, if foundIn (make_header_map H ci) ci c = true then (mkChunk H rows).colVals ((readColFor (make_header_map H ci)) c) else List.replicate rows.length Cell.na))) := by
    unfold processChunkColumns
    rw [processChunkColumns_fillna_master requested H ci rows hH hfold hquirk]
  refine ⟨?_, ?_, ?_⟩
  · rw [hout]
    exact colNames_map_pair rows.length requested (fun e => if foundIn (make_header_map H ci) ci e = true then (mkChunk H rows).colVals ((readColFor (make_header_map H ci)) e) else List.replicate rows.length Cell.na)
  · intro X hX hf
    rw [hout]
    have hcv : (DF.mk rows.length (requested.map (fun c => (c, if foundIn (make_header_map H ci) ci c = true then (mkChunk H rows).colVals ((readColFor (make_header_map H ci)) c) else List.replicate rows.length Cell.na)))).colVals X
        = (if foundIn (make_header_map H ci) ci X = true then (mkChunk H rows).colVals ((readColFor (make_header_map H ci)) X)
           else List.replicate rows.length Cell.na) :=
      colVals_map_pair rows.length requested (fun e => if foundIn (make_header_map H ci) ci e = true then (mkChunk H rows).colVals ((readColFor (make_header_map H ci)) e) else List.replicate rows.length Cell.na) X hX
    rw [hcv, if_neg (by rw [hf]; exact Bool.false_ne_true)]
  · intro c hc ht
    rw [hout]
    have hcv : (DF.mk rows.length (requested.map (fun c => (c, if foundIn (make_header_map H ci) ci c = true then (mkChunk H rows).colVals ((readColFor (make_header_map H ci)) c) else List.replicate rows.length Cell.na)))).colVals c
        = (if foundIn (make_header_map H ci) ci c = true then (mkChunk H rows).colVals ((readColFor (make_header_map H ci)) c)
           else List.replicate rows.length Cell.na) :=
      colVals_map_pair rows.length requested (fun e => if foundIn (make_header_map H ci) ci e = true then (mkChunk H rows).colVals ((readColFor (make_header_map H ci)) e) else List.replicate rows.length Cell.na) c hc
    rw [hcv, if_pos ht]

/-- Witness for C6 (amended): requesting id and score from a file carrying
only id yields an all-NA score column. -/
theorem requested_fillna_nulls_witness :
    (processChunkColumns ["id", "score"] (make_header_map ["id"] true) MissingPolicy.fillna
        (mkChunk ["id"] [[Cell.val "1"]])).colVals "score" = List.replicate 1 Cell.na :=
  (requested_fillna_nulls ["id", "score"] ["id"] true [[Cell.val "1"]]
    (by decide) (by decide) (by decide)).2.1 "score" (by decide) (by decide)

/-- Counterexample to C6 as stated: with case matching off, requested
column A is reported missing for a file whose header is a, yet the merged
chunk fills column A with the values of column a instead of NA. -/
theorem requested_fillna_value_leak_counterexample :
    (resolve_requested_columns ["A"] (make_header_map ["a"] false) false).2 = ["A"] ∧
    processChunkColumns ["A"] (make_header_map ["a"] false) MissingPolicy.fillna
        (mkChunk ["a"] [[Cell.val "v"]])
      = DF.mk 1 [("A", [Cell.val "v"])] := by
  decide

/-! ## C10 -/

/-- C10 (amended): in requested-columns mode under missing-policy error or
skip, a file that resolves every requested column yields chunks for which
the merge-time late fill loop synthesizes no column, provided case
matching is off or the requested names have pairwise distinct lower-cased
forms.  (Amended: the proviso is necessary - two requested names that
collapse to the same case-folded key both resolve, yet the rename map can
restore only one of them, so the late fill branch fires; see the
counterexample.) -/
theorem no_late_fill_when_resolved
    (requested H : List String) (ci : Bool) (pol : MissingPolicy) (rows : List (List Cell))
    (hH : H.Nodup)
    ( _hpol : pol = MissingPolicy.error ∨ pol = MissingPolicy.skip)
    (hres : (resolve_requested_columns requested (make_header_map H ci) ci).2 = [])
    (hside : ci = false ∨ (requested.map lower).Nodup) :
    (processChunkColumnsAux requested (make_header_map H ci) pol (mkChunk H rows)).2 = [] := by
  have hfilter : requested.filter (fun c => !foundIn (make_header_map H ci) ci c) = [] := by
    unfold resolve_requested_columns at hres
    rw [resolve_spec] at hres
    exact hres
  have hall : ∀ c ∈ requested, foundIn (make_header_map H ci) ci c = true := by
    intro c hc
    have h2 := List.filter_eq_nil_iff.mp hfilter c hc
    simpa using h2
  have hinj : ∀ x ∈ requested, ∀ y ∈ requested, (readColFor (make_header_map H ci)) x = (readColFor (make_header_map H ci)) y → x = y := by
    by_cases hci : ci = true
    · subst hci
      have hnd : (requested.map lower).Nodup := by
        rcases hside with h | h
        · exact absurd h (by decide)
        · exact h
      have hfold : (requested.map (foldKey true)).Nodup := by
        simpa [foldKey] using hnd
      have hquirk : ∀ c ∈ requested,
          foundIn (make_header_map H true) true c = false →
          alContains (make_header_map H true) (lower c) = false := by
        intro c hc hf
        rw [hall c hc] at hf
        exact absurd hf (by decide)
      exact readColFor_inj requested H true hfold hquirk
    · have hcif : ci = false := by
        cases ci
        · rfl
        · exact absurd rfl hci
      subst hcif
      have hmemH : ∀ c ∈ requested, c ∈ H := by
        intro c hc
        obtain ⟨h0, hh0, hfk⟩ := (alContains_make_header_map H false c).mp (hall c hc)
        have h0c : h0 = c := by simpa [foldKey] using hfk
        exact h0c ▸ hh0
      intro x hx y hy he
      rw [readColFor_cs_found (hmemH x hx), readColFor_cs_found (hmemH y hy)] at he
      exact he
  rw [processChunkColumnsAux_found requested H ci pol rows hH hall hinj]

/-- Witness for C10 (amended): a file whose header is exactly the
requested list produces a chunk with no late-filled column. -/
theorem no_late_fill_when_resolved_witness :
    (processChunkColumnsAux ["id"] (make_header_map ["id"] false) MissingPolicy.error
        (mkChunk ["id"] [[Cell.val "1"]])).2 = [] :=
  no_late_fill_when_resolved ["id"] ["id"] false MissingPolicy.error [[Cell.val "1"]]
    (by decide) (Or.inl rfl) (by decide) (Or.inl rfl)

/-- Counterexample to C10 as stated: with case matching on, the requested
names A and a both resolve against header a - so the file passes the
error and skip checks - yet the late fill loop synthesizes column A at
merge time. -/
theorem late_fill_reachable_counterexample :
    (resolve_requested_columns ["A", "a"] (make_header_map ["a"] true) true).2 = [] ∧
    (processChunkColumnsAux ["A", "a"] (make_header_map ["a"] true) MissingPolicy.error
        (mkChunk ["a"] [[Cell.val "v"]])).2 = ["A"] := by
  decide

end ConCat
